import Mathlib

/-!
Shallow embedding of the oop-compiler middle end (src/ir.rs, src/cfg.rs,
src/ir_builder.rs) and proofs about the behaviour of its passes.

Machine integers (Rust i64) are modelled as unbounded Int with explicit
wrapping applied exactly where the source uses wrapping_add / wrapping_sub /
wrapping_mul.  Rust HashMap / HashSet values that are only ever accessed by
key are modelled as association lists (insert = prepend, lookup = first
match, which realises the overwrite semantics of HashMap::insert).  Rust
loops without a structural termination argument are modelled with an explicit
fuel parameter; theorems quantify over the fuel.
-/

namespace Oop

/-! ## IR data model (src/ir.rs) -/

/-- Value: `Constant(i64) | Variable(String) | Global(String)`. -/
inductive Value where
  | constant (n : Int)
  | var (name : String)
  | global (name : String)
deriving DecidableEq, Repr, Inhabited

/-- Primitive instructions, mirroring `enum Primitive` of ir.rs. -/
inductive Primitive where
  | assign (dest : String) (value : Value)
  | binOp (dest : String) (lhs : Value) (op : String) (rhs : Value)
  | call (dest : String) (func : Value) (receiver : Value) (args : List Value)
  | phi (dest : String) (args : List (String × Value))
  | alloc (dest : String) (size : Int)
  | print (val : Value)
  | getElt (dest : String) (arr : Value) (idx : Value)
  | setElt (arr : Value) (idx : Value) (val : Value)
  | load (dest : String) (addr : Value)
  | store (addr : Value) (val : Value)
deriving DecidableEq, Repr, Inhabited

/-- Control transfers, mirroring `enum ControlTransfer` of ir.rs. -/
inductive ControlTransfer where
  | jump (target : String)
  | branch (cond : Value) (then_lab : String) (else_lab : String)
  | ret (val : Value)
  | fail (message : String)
deriving DecidableEq, Repr, Inhabited

structure BasicBlock where
  label : String
  primitives : List Primitive
  control_transfer : ControlTransfer
deriving DecidableEq, Repr, Inhabited

structure Function where
  name : String
  args : List String
  blocks : List BasicBlock
deriving DecidableEq, Repr, Inhabited

structure GlobalArray where
  name : String
  vals : List String
deriving DecidableEq, Repr, Inhabited

structure Program where
  globals : List GlobalArray
  functions : List Function
deriving DecidableEq, Repr, Inhabited

/-! ## Printer (ir.rs, `impl Program`: print / format_primitive /
format_value / format_control_transfer), emitting the exact bytes the Rust
code writes to stdout. -/

def format_value : Value → String
  | .constant n => toString n
  | .var v => "%" ++ v
  | .global g => "@" ++ g

def format_primitive : Primitive → String
  | .assign dest value => "%" ++ dest ++ " = " ++ format_value value
  | .binOp dest lhs op rhs =>
      "%" ++ dest ++ " = " ++ format_value lhs ++ " " ++ op ++ " " ++ format_value rhs
  | .call dest func receiver args =>
      if args.isEmpty then
        "%" ++ dest ++ " = call(" ++ format_value func ++ ", " ++ format_value receiver ++ ")"
      else
        "%" ++ dest ++ " = call(" ++ format_value func ++ ", " ++ format_value receiver ++ ", "
          ++ String.intercalate ", " (args.map format_value) ++ ")"
  | .phi dest args =>
      "%" ++ dest ++ " = phi("
        ++ String.intercalate ", " (args.map (fun a => a.1 ++ ", " ++ format_value a.2)) ++ ")"
  | .alloc dest size => "%" ++ dest ++ " = alloc(" ++ toString size ++ ")"
  | .print val => "print(" ++ format_value val ++ ")"
  | .getElt dest arr idx =>
      "%" ++ dest ++ " = getelt(" ++ format_value arr ++ ", " ++ format_value idx ++ ")"
  | .setElt arr idx val =>
      "setelt(" ++ format_value arr ++ ", " ++ format_value idx ++ ", " ++ format_value val ++ ")"
  | .load dest addr => "%" ++ dest ++ " = load(" ++ format_value addr ++ ")"
  | .store addr val => "store(" ++ format_value addr ++ ", " ++ format_value val ++ ")"

def format_control_transfer : ControlTransfer → String
  | .jump target => "jump " ++ target
  | .branch cond then_lab else_lab =>
      "if " ++ format_value cond ++ " then " ++ then_lab ++ " else " ++ else_lab
  | .ret val => "ret " ++ format_value val
  | .fail message => "fail " ++ message

/-- One printed basic block: label line (omitted for the first block of a
function), indented primitives, indented control transfer. -/
def print_block (first : Bool) (blk : BasicBlock) : String :=
  (if first then "" else "\n" ++ blk.label ++ ":\n")
    ++ String.join (blk.primitives.map (fun p => "  " ++ format_primitive p ++ "\n"))
    ++ "  " ++ format_control_transfer blk.control_transfer ++ "\n"

def print_function (f : Function) : String :=
  "\n" ++ f.name
    ++ (if f.args.isEmpty then "" else "(" ++ String.intercalate ", " f.args ++ ")")
    ++ ":\n"
    ++ (match f.blocks with
        | [] => ""
        | b :: bs => print_block true b ++ String.join (bs.map (print_block false)))

def print_global (g : GlobalArray) : String :=
  "global array " ++ g.name ++ ": \x7b " ++ String.intercalate ", " g.vals ++ " \x7d\n"

def print_program (p : Program) : String :=
  "data:\n" ++ String.join (p.globals.map print_global)
    ++ "\ncode:\n" ++ String.join (p.functions.map print_function)

/-! ## Constant folding (cfg.rs: fold_constants / try_fold_constant /
evaluate_binop) -/

/-- Wrap an unbounded integer into the i64 range, the semantics of Rust's
wrapping_add / wrapping_sub / wrapping_mul on in-range operands. -/
def wrap64 (x : Int) : Int := (x + 2 ^ 63) % 2 ^ 64 - 2 ^ 63

/-- cfg.rs `evaluate_binop`.  `/` is Rust i64 division: truncation toward
zero (`Int.tdiv`), and `None` on a zero divisor. -/
def evaluate_binop (op : String) (left right : Int) : Option Int :=
  if op = "+" then some (wrap64 (left + right))
  else if op = "-" then some (wrap64 (left - right))
  else if op = "*" then some (wrap64 (left * right))
  else if op = "/" then (if right = 0 then none else some (left.tdiv right))
  else if op = "|" then some (Int.lor left right)
  else if op = "&" then some (Int.land left right)
  else if op = "^" then some (Int.xor left right)
  else if op = "==" then some (if left = right then 1 else 0)
  else if op = "<" then some (if left < right then 1 else 0)
  else if op = ">" then some (if left > right then 1 else 0)
  else none

/-- Operand resolution used in `try_fold_constant`: a constant resolves to
itself, a variable through the constant map, anything else fails. -/
def resolve_operand (const_map : List (String × Int)) : Value → Option Int
  | .constant c => some c
  | .var v => const_map.lookup v
  | .global _ => none

/-- cfg.rs `try_fold_constant`. -/
def try_fold_constant (prim : Primitive) (const_map : List (String × Int)) : Option Primitive :=
  match prim with
  | .binOp dest lhs op rhs =>
      match resolve_operand const_map lhs, resolve_operand const_map rhs with
      | some left, some right =>
          match evaluate_binop op left right with
          | some result => some (.assign dest (.constant result))
          | none => none
      | _, _ => none
  | _ => none

/-- The recording step of `fold_constants`: an `Assign` of a constant is
entered into the constant map (HashMap insert = overwrite, realised by
prepending). -/
def record_const (const_map : List (String × Int)) : Primitive → List (String × Int)
  | .assign dest (.constant c) => (dest, c) :: const_map
  | _ => const_map

/-- The inner loop of one `fold_constants` iteration over one block's
primitive vector: record, then try to fold, in index order. -/
def fold_block_prims :
    List Primitive → List (String × Int) → Bool → List Primitive × List (String × Int) × Bool
  | [], m, ch => ([], m, ch)
  | p :: ps, m, ch =>
      let m' := record_const m p
      match try_fold_constant p m' with
      | some folded =>
          let r := fold_block_prims ps m' true
          (folded :: r.1, r.2)
      | none =>
          let r := fold_block_prims ps m' ch
          (p :: r.1, r.2)

/-- One `fold_constants` iteration walks all blocks in order, threading the
constant map and the changed flag. -/
def fold_blocks :
    List BasicBlock → List (String × Int) → Bool → List BasicBlock × List (String × Int) × Bool
  | [], m, ch => ([], m, ch)
  | b :: bs, m, ch =>
      let r := fold_block_prims b.primitives m ch
      let rest := fold_blocks bs r.2.1 r.2.2
      ({ b with primitives := r.1 } :: rest.1, rest.2)

/-- One iteration of the `while changed` loop of `fold_constants`. -/
def fold_iter (f : Function) : Function × Bool :=
  let r := fold_blocks f.blocks [] false
  ({ f with blocks := r.1 }, r.2.2)

def is_binop : Primitive → Bool
  | .binOp _ _ _ _ => true
  | _ => false

/-- Number of BinOp primitives in a primitive list. -/
def binop_count_prims (ps : List Primitive) : Nat :=
  ps.countP is_binop

/-- Number of BinOp primitives in a function. -/
def binop_count (f : Function) : Nat :=
  (f.blocks.map (fun b => binop_count_prims b.primitives)).sum

/-- The `while changed` loop, with fuel.  The loop body runs at least once;
the loop exits after an iteration that changes nothing, returning that
iteration's (unchanged) result. -/
def fold_loop : Nat → Function → Function
  | 0, f => f
  | n + 1, f =>
      let r := fold_iter f
      if r.2 then fold_loop n r.1 else r.1

/-- cfg.rs `fold_constants`.  Each changing iteration strictly decreases the
number of BinOps (proved below), so `binop_count f + 1` iterations always
reach the fixpoint the Rust `while changed` loop stops at. -/
def fold_constants (f : Function) : Function :=
  fold_loop (binop_count f + 1) f

/-- The constant map accumulated by one folding pass over a prefix of the
primitives of a prefix of the blocks (program order). -/
def record_prims (m : List (String × Int)) (ps : List Primitive) : List (String × Int) :=
  ps.foldl record_const m

def record_blocks (m : List (String × Int)) (bs : List BasicBlock) : List (String × Int) :=
  bs.foldl (fun m b => record_prims m b.primitives) m

/-- Constant map visible to the primitive at position `i` of block `bi`
during a folding pass: all constant assigns of earlier blocks and of the
first `i` primitives of block `bi`. -/
def prefix_const_map (f : Function) (bi i : Nat) : List (String × Int) :=
  record_prims (record_blocks [] (f.blocks.take bi))
    ((((f.blocks.get? bi).map BasicBlock.primitives).getD []).take i)

/-- Constant map over the whole function, the map the spec's two-phase
description of the pass would build before folding anything. -/
def const_map_of (f : Function) : List (String × Int) :=
  record_blocks [] f.blocks

/-! ## Value numbering (cfg.rs: value_numbering / get_valnum) -/

/-- The per-block state of cfg.rs `value_numbering`: the four HashMaps and
the counter.  Maps are association lists; insert prepends (HashMap
overwrite), lookup takes the first match. -/
structure VnState where
  expr_to_valnum : List ((String × Nat × Nat) × Nat)
  var_to_valnum : List (String × Nat)
  valnum_to_var : List (Nat × String)
  const_to_valnum : List (Int × Nat)
  valnum_count : Nat
deriving DecidableEq, Repr, Inhabited

def VnState.empty : VnState := ⟨[], [], [], [], 0⟩

/-- cfg.rs `get_valnum`.  Note: in the `Variable` arm the source reads
`let valnum = *valnum_count;` and inserts the bindings but — unlike the
`Constant` and `Global` arms — never executes `*valnum_count += 1`; the
embedding mirrors that omission exactly. -/
def get_valnum (val : Value) (st : VnState) : Nat × VnState :=
  match val with
  | .var n =>
      match st.var_to_valnum.lookup n with
      | some valnum => (valnum, st)
      | none =>
          let valnum := st.valnum_count
          (valnum, { st with
            var_to_valnum := (n, valnum) :: st.var_to_valnum,
            valnum_to_var := (valnum, n) :: st.valnum_to_var })
  | .constant c =>
      match st.const_to_valnum.lookup c with
      | some valnum => (valnum, st)
      | none =>
          let valnum := st.valnum_count
          (valnum, { st with
            valnum_count := st.valnum_count + 1,
            const_to_valnum := (c, valnum) :: st.const_to_valnum })
  | .global name =>
      match st.var_to_valnum.lookup name with
      | some valnum => (valnum, st)
      | none =>
          let valnum := st.valnum_count
          (valnum, { st with
            valnum_count := st.valnum_count + 1,
            var_to_valnum := (name, valnum) :: st.var_to_valnum,
            valnum_to_var := (valnum, name) :: st.valnum_to_var })

/-- The body of the `for i in 0..block.primitives.len()` loop of
`value_numbering`, walking the primitives in order.  The
`valnum_to_var.get(&existing_vn).unwrap()` of the source is modelled with a
default (the lookup provably succeeds whenever the key was recorded). -/
def vn_prims : List Primitive → VnState → List Primitive
  | [], _ => []
  | p :: ps, st =>
      match p with
      | .binOp dest lhs op rhs =>
          let r1 := get_valnum lhs st
          let r2 := get_valnum rhs r1.2
          let st := r2.2
          let expr_key := (op, r1.1, r2.1)
          match st.expr_to_valnum.lookup expr_key with
          | some existing_vn =>
              let var := (st.valnum_to_var.lookup existing_vn).getD ""
              let st := { st with var_to_valnum := (dest, existing_vn) :: st.var_to_valnum }
              .assign dest (.var var) :: vn_prims ps st
          | none =>
              let vn := st.valnum_count
              let st := { st with
                valnum_count := st.valnum_count + 1,
                expr_to_valnum := (expr_key, vn) :: st.expr_to_valnum,
                var_to_valnum := (dest, vn) :: st.var_to_valnum,
                valnum_to_var := (vn, dest) :: st.valnum_to_var }
              p :: vn_prims ps st
      | .assign dest value =>
          let r := get_valnum value st
          let st := r.2
          let st := { st with var_to_valnum := (dest, r.1) :: st.var_to_valnum }
          let st :=
            if (st.valnum_to_var.lookup r.1).isSome then st
            else { st with valnum_to_var := (r.1, dest) :: st.valnum_to_var }
          p :: vn_prims ps st
      | .load dest _ =>
          p :: vn_prims ps (vn_fresh dest st)
      | .call dest _ _ _ =>
          p :: vn_prims ps (vn_fresh dest st)
      | .alloc dest _ =>
          p :: vn_prims ps (vn_fresh dest st)
      | .getElt dest _ _ =>
          p :: vn_prims ps (vn_fresh dest st)
      | .phi dest _ =>
          p :: vn_prims ps (vn_fresh dest st)
      | _ => p :: vn_prims ps st
where
  /-- The shared `Load | Call | Alloc | GetElt | Phi` arm: allocate a fresh
  value number for the destination. -/
  vn_fresh (dest : String) (st : VnState) : VnState :=
    let vn := st.valnum_count
    { st with
      valnum_count := st.valnum_count + 1,
      var_to_valnum := (dest, vn) :: st.var_to_valnum,
      valnum_to_var := (vn, dest) :: st.valnum_to_var }

/-- cfg.rs `value_numbering`: per-block, each block starting from the empty
state. -/
def value_numbering (f : Function) : Function :=
  { f with blocks := f.blocks.map (fun b => { b with primitives := vn_prims b.primitives VnState.empty }) }

/-! ## AST (token.rs Operator, expression.rs, statement.rs, and the class /
method / program shape as consumed by ir_builder.rs, where field, argument
and local lists are lists of names). -/

inductive Operator where
  | plus | minus | multiply | divide | equals | lessThan | greaterThan
  | bitwiseAnd | bitwiseOr | bitwiseXor | notEquals
deriving DecidableEq, Repr, Inhabited

/-- token.rs `impl Display for Operator`. -/
def Operator.toString : Operator → String
  | .plus => "+"
  | .minus => "-"
  | .multiply => "*"
  | .divide => "/"
  | .equals => "=="
  | .lessThan => "<"
  | .greaterThan => ">"
  | .bitwiseAnd => "&"
  | .bitwiseOr => "|"
  | .bitwiseXor => "^"
  | .notEquals => "!="

/-- expression.rs `enum Expression` (`Variable` is spelled `var`: `variable`
is a Lean keyword). -/
inductive Expression where
  | thisExpr
  | constant (n : Int)
  | binop (lhs : Expression) (op : Operator) (rhs : Expression)
  | methodCall (base : Expression) (method_name : String) (args : List Expression)
  | fieldRead (base : Expression) (field_name : String)
  | fieldWrite (base : Expression) (field_name : String) (value : Expression)
  | classRef (name : String)
  | var (name : String)
deriving Inhabited

/-- statement.rs `enum Statement` (`If`, `While`, `Return`, `Print` renamed
around Lean keywords). -/
inductive Statement where
  | assignment (variable_name : String) (expression : Expression)
  | discard (e : Expression)
  | fieldWrite (base : Expression) (field : String) (value : Expression)
  | ifStmt (condition : Expression) (then_body : List Statement) (else_body : List Statement)
  | ifOnly (condition : Expression) (body : List Statement)
  | whileStmt (condition : Expression) (body : List Statement)
  | ret (e : Expression)
  | printStmt (e : Expression)
deriving Inhabited

/-- ast.rs `enum Type`. -/
inductive Ty where
  | int
  | classType (name : String)
deriving DecidableEq, Repr, Inhabited

structure Method where
  name : String
  args : List String
  locals : List String
  body : List Statement
deriving Inhabited

structure Class where
  name : String
  fields : List String
  methods : List Method
deriving Inhabited

structure AstProgram where
  classes : List Class
  main_locals : List String
  main_body : List Statement
deriving Inhabited

/-! ## IR builder (ir_builder.rs) -/

structure ClassMetadata where
  field_count : Nat
  field_map : List (String × Nat)
  vtable_map : List (String × Nat)
deriving DecidableEq, Repr, Inhabited

structure IRBuilder where
  temp_counter : Nat
  block_counter : Nat
  current_block : BasicBlock
  current_function_blocks : List BasicBlock
  functions : List Function
  globals : List GlobalArray
  class_metadata_map : List (String × ClassMetadata)
  global_field_ids : List (String × Nat)
  global_method_ids : List (String × Nat)
  current_block_has_explicit_return : Bool
deriving DecidableEq, Repr, Inhabited

/-- ir_builder.rs `IRBuilder::new`. -/
def IRBuilder.new : IRBuilder :=
  { temp_counter := 0
    block_counter := 0
    current_block := ⟨"entry", [], .ret (.constant 0)⟩
    current_function_blocks := []
    functions := []
    globals := []
    class_metadata_map := []
    global_field_ids := []
    global_method_ids := []
    current_block_has_explicit_return := false }

def gen_unique_variable (b : IRBuilder) (pfx : String) : String × IRBuilder :=
  (pfx ++ toString b.temp_counter, { b with temp_counter := b.temp_counter + 1 })

def gen_unique_label (b : IRBuilder) (pfx : String) : String × IRBuilder :=
  (pfx ++ toString b.block_counter, { b with block_counter := b.block_counter + 1 })

def push_instruction (b : IRBuilder) (p : Primitive) : IRBuilder :=
  { b with current_block :=
      { b.current_block with primitives := b.current_block.primitives ++ [p] } }

def finish_block (b : IRBuilder) (transfer : ControlTransfer) (next_label : String) : IRBuilder :=
  { b with
    current_function_blocks :=
      b.current_function_blocks ++ [{ b.current_block with control_transfer := transfer }]
    current_block := ⟨next_label, [], .ret (.constant 0)⟩
    current_block_has_explicit_return := false }

def finish_function (b : IRBuilder) (name : String) (args : List String) : IRBuilder :=
  let cur :=
    match b.current_block.control_transfer with
    | .ret _ => b.current_block
    | _ => { b.current_block with control_transfer := .ret (.constant 0) }
  { b with
    functions := b.functions ++ [⟨name, args, b.current_function_blocks ++ [cur]⟩]
    current_function_blocks := []
    current_block := ⟨"entry", [], .ret (.constant 0)⟩
    current_block_has_explicit_return := false }

/-- First pass of `gen_class_metadata` for one name list: assign the next
global id to every name not seen before. -/
def add_ids : List String → List (String × Nat) → Nat → List (String × Nat) × Nat
  | [], ids, next => (ids, next)
  | f :: fs, ids, next =>
      if (ids.lookup f).isSome then add_ids fs ids next
      else add_ids fs (ids ++ [(f, next)]) (next + 1)

/-- ir_builder.rs `gen_class_metadata`, first pass.  The Rust loop assigns
field ids and method ids in the same left-to-right class walk; the two id
spaces are independent, so they are computed as two folds. -/
def global_field_ids_of (p : AstProgram) : List (String × Nat) :=
  (p.classes.foldl (fun acc c => add_ids c.fields acc.1 acc.2) ([], 0)).1

def global_method_ids_of (p : AstProgram) : List (String × Nat) :=
  (p.classes.foldl (fun acc c => add_ids (c.methods.map Method.name) acc.1 acc.2) ([], 0)).1

/-- Per-class `field_map`: `field → 2 + position` (HashMap insert, so a
duplicated field name keeps the later entry: prepend + first-match lookup). -/
def build_field_map (fields : List String) : List (String × Nat) :=
  fields.enum.foldl (fun m fi => (fi.2, 2 + fi.1) :: m) []

/-- Per-class `vtable_map`: `method name → position`. -/
def build_vtable_map (methods : List Method) : List (String × Nat) :=
  methods.enum.foldl (fun m mi => (mi.2.name, mi.1) :: m) []

/-- Per-class `vtable_vals`: a vector of `total` entries `"0"`, overwritten
at each implemented method's global id with `methodName ++ className`.  The
source's `.unwrap()` on the id lookup is modelled with a default; the lookup
provably succeeds because the first pass saw every method name. -/
def build_vtable_vals (method_ids : List (String × Nat)) (total : Nat) (c : Class) : List String :=
  c.methods.foldl
    (fun vals m => vals.set ((method_ids.lookup m.name).getD 0) (m.name ++ c.name))
    (List.replicate total "0")

/-- Per-class `field_offsets`.  The Rust code iterates the `field_map`
HashMap in hash order; entries write at pairwise distinct indices, so the
result does not depend on that order and the embedding iterates the list. -/
def build_field_offsets (field_ids : List (String × Nat)) (total : Nat)
    (field_map : List (String × Nat)) : List String :=
  field_map.foldl
    (fun vals kv => vals.set ((field_ids.lookup kv.1).getD 0) (toString kv.2))
    (List.replicate total "0")

/-- ir_builder.rs `gen_class_metadata`, both passes. -/
def gen_class_metadata (b : IRBuilder) (p : AstProgram) : IRBuilder :=
  let field_ids := global_field_ids_of p
  let method_ids := global_method_ids_of p
  let total_fields := field_ids.length
  let total_methods := method_ids.length
  p.classes.foldl
    (fun b c =>
      let field_map := build_field_map c.fields
      let vtable_map := build_vtable_map c.methods
      let vtable_vals := build_vtable_vals method_ids total_methods c
      let field_offsets := build_field_offsets field_ids total_fields field_map
      { b with
        globals := b.globals ++
          [⟨"vtbl" ++ c.name, vtable_vals⟩, ⟨"fields" ++ c.name, field_offsets⟩]
        class_metadata_map :=
          (c.name, ⟨c.fields.length, field_map, vtable_map⟩) :: b.class_metadata_map })
    { b with global_field_ids := field_ids, global_method_ids := method_ids }

mutual

/-- ir_builder.rs `gen_expression`, with an explicit fuel for the recursion
(the source recursion is structural; every theorem quantifies over the fuel).
The `.expect` panics on failed class / field / method lookups are modelled
as `none`.  Each Rust statement pair `let n = self.gen_unique_*(…)` /
`self.push_instruction(…)` / `self.finish_block(…)` appears as one `match`
whose scrutinee threads the builder through the pushes, preserving the exact
operation order. -/
def gen_expression : Nat → Expression → IRBuilder → Option (Value × IRBuilder)
  | 0, _, _ => none
  | fuel + 1, e, b =>
    match e with
    | .constant n => some (.constant (2 * n + 1), b)
    | .var name => some (.var name, b)
    | .thisExpr => some (.var "this", b)
    | .binop lhs op rhs => do
        let (left, b) ← gen_expression fuel lhs b
        let (right, b) ← gen_expression fuel rhs b
        if op = .equals then
          match gen_unique_variable b "rawResult" with
          | (raw_result, b) =>
          match gen_unique_variable
              (push_instruction b (.binOp raw_result left (Operator.toString op) right))
              "tagged_result" with
          | (tagged_result, b) =>
          match gen_unique_variable
              (push_instruction b (.binOp tagged_result (.var raw_result) "*" (.constant 2)))
              "result" with
          | (result, b) =>
            some (.var result,
              push_instruction b (.binOp result (.var tagged_result) "+" (.constant 1)))
        else if op = .notEquals then
          match gen_unique_variable b "eqResult" with
          | (eq_result, b) =>
          match gen_unique_variable
              (push_instruction b (.binOp eq_result left "==" right)) "flipped" with
          | (flipped, b) =>
          match gen_unique_variable
              (push_instruction b (.binOp flipped (.var eq_result) "^" (.constant 1)))
              "tagged_result" with
          | (tagged_result, b) =>
          match gen_unique_variable
              (push_instruction b (.binOp tagged_result (.var flipped) "*" (.constant 2)))
              "result" with
          | (result, b) =>
            some (.var result,
              push_instruction b (.binOp result (.var tagged_result) "+" (.constant 1)))
        else
          match gen_unique_variable b "numTag" with
          | (left_tag, b) =>
          match gen_unique_label
              (push_instruction b (.binOp left_tag left "&" (.constant 1))) "badnum" with
          | (bad_num_label, b) =>
          match gen_unique_label b "checkRight" with
          | (check_right_label, b) =>
          match gen_unique_variable
              (finish_block b (.branch (.var left_tag) check_right_label bad_num_label)
                check_right_label)
              "numTag" with
          | (right_tag, b) =>
          match gen_unique_label
              (push_instruction b (.binOp right_tag right "&" (.constant 1))) "doMath" with
          | (do_math_label, b) =>
          match gen_unique_label b "badnum" with
          | (bad_num_label2, b) =>
          match gen_unique_variable
              (finish_block b (.branch (.var right_tag) do_math_label bad_num_label2)
                do_math_label)
              "untagged" with
          | (left_untagged, b) =>
          match gen_unique_variable
              (push_instruction b (.binOp left_untagged left "/" (.constant 2))) "untagged" with
          | (right_untagged, b) =>
          match gen_unique_variable
              (push_instruction b (.binOp right_untagged right "/" (.constant 2)))
              "rawResult" with
          | (raw_result, b) =>
          match gen_unique_variable
              (push_instruction b
                (.binOp raw_result (.var left_untagged) (Operator.toString op)
                  (.var right_untagged)))
              "tagged_result" with
          | (tagged_result, b) =>
          match gen_unique_variable
              (push_instruction b (.binOp tagged_result (.var raw_result) "*" (.constant 2)))
              "result" with
          | (result, b) =>
          match gen_unique_label
              (push_instruction b (.binOp result (.var tagged_result) "+" (.constant 1)))
              "final" with
          | (final_label, b) =>
            some (.var result,
              finish_block
                (finish_block
                  (finish_block b (.jump final_label) bad_num_label)
                  (.fail "NotANumber") bad_num_label2)
                (.fail "NotANumber") final_label)
    | .classRef class_name => do
        let metadata ← b.class_metadata_map.lookup class_name
        match gen_unique_variable b "objAddr" with
        | (obj_addr, b) =>
        match gen_unique_variable
            (push_instruction
              (push_instruction b (.alloc obj_addr (2 + (metadata.field_count : Int))))
              (.store (.var obj_addr) (.global ("vtbl" ++ class_name))))
            "fieldsAddr" with
        | (fields_addr, b) =>
          some (.var obj_addr,
            push_instruction
              (push_instruction b (.binOp fields_addr (.var obj_addr) "+" (.constant 8)))
              (.store (.var fields_addr) (.global ("fields" ++ class_name))))
    | .fieldRead base field_name => do
        let (base_val, b) ← gen_expression fuel base b
        match gen_unique_variable b "tag" with
        | (tag, b) =>
        match gen_unique_label
            (push_instruction b (.binOp tag base_val "&" (.constant 1))) "badptr" with
        | (bad_ptr_label, b) =>
        match gen_unique_label b "firstStore" with
        | (continue_label, b) =>
        match gen_unique_variable
            (finish_block b (.branch (.var tag) bad_ptr_label continue_label) continue_label)
            "fieldMapAddr" with
        | (field_map_addr, b) =>
        match gen_unique_variable
            (push_instruction b (.binOp field_map_addr base_val "+" (.constant 8)))
            "fieldMap" with
        | (field_map, b) => do
          let global_idx ← b.global_field_ids.lookup field_name
          match gen_unique_variable
              (push_instruction b (.load field_map (.var field_map_addr))) "offset" with
          | (offset, b) =>
          match gen_unique_label
              (push_instruction b
                (.getElt offset (.var field_map) (.constant (Int.ofNat global_idx))))
              "badfield" with
          | (bad_field_label, b) =>
          match gen_unique_label b "load" with
          | (load_label, b) =>
          match gen_unique_variable
              (finish_block b (.branch (.var offset) load_label bad_field_label) load_label)
              "result" with
          | (result, b) =>
          match gen_unique_label
              (push_instruction b (.getElt result base_val (.var offset))) "final" with
          | (final_label, b) =>
            some (.var result,
              finish_block
                (finish_block
                  (finish_block b (.jump final_label) bad_ptr_label)
                  (.fail "NotAPointer") bad_field_label)
                (.fail "NoSuchField") final_label)
    | .fieldWrite base field_name value => do
        let (base_val, b) ← gen_expression fuel base b
        let (val, b) ← gen_expression fuel value b
        match gen_unique_variable b "tag" with
        | (tag, b) =>
        match gen_unique_label
            (push_instruction b (.binOp tag base_val "&" (.constant 1))) "badptr" with
        | (bad_ptr_label, b) =>
        match gen_unique_label b "firstStore" with
        | (continue_label, b) =>
        match gen_unique_variable
            (finish_block b (.branch (.var tag) bad_ptr_label continue_label) continue_label)
            "fieldMapAddr" with
        | (field_map_addr, b) =>
        match gen_unique_variable
            (push_instruction b (.binOp field_map_addr base_val "+" (.constant 8)))
            "fieldMap" with
        | (field_map, b) => do
          let global_idx ← b.global_field_ids.lookup field_name
          match gen_unique_variable
              (push_instruction b (.load field_map (.var field_map_addr))) "offset" with
          | (offset, b) =>
          match gen_unique_label
              (push_instruction b
                (.getElt offset (.var field_map) (.constant (Int.ofNat global_idx))))
              "badfield" with
          | (bad_field_label, b) =>
          match gen_unique_label b "load" with
          | (load_label, b) =>
          match gen_unique_label
              (push_instruction
                (finish_block b (.branch (.var offset) load_label bad_field_label) load_label)
                (.setElt base_val (.var offset) val))
              "final" with
          | (final_label, b) =>
            some (.constant 0,
              finish_block
                (finish_block
                  (finish_block b (.jump final_label) bad_ptr_label)
                  (.fail "NotAPointer") bad_field_label)
                (.fail "NoSuchField") final_label)
    | .methodCall base method_name args => do
        let (base_val, b) ← gen_expression fuel base b
        match gen_unique_variable b "tag" with
        | (tag, b) =>
        match gen_unique_label
            (push_instruction b (.binOp tag base_val "&" (.constant 1))) "badptr" with
        | (badptr, b) =>
        match gen_unique_label b "load" with
        | (load_lab, b) =>
        match gen_unique_variable
            (finish_block b (.branch (.var tag) badptr load_lab) load_lab) "vtable" with
        | (vtable, b) => do
          let global_method_id ← b.global_method_ids.lookup method_name
          match gen_unique_variable
              (push_instruction b (.load vtable base_val)) "methodPtr" with
          | (method_ptr, b) =>
          match gen_unique_label
              (push_instruction b
                (.getElt method_ptr (.var vtable) (.constant (Int.ofNat global_method_id))))
              "badmethod" with
          | (badmethod, b) =>
          match gen_unique_label b "callAndPrint" with
          | (call_and_print, b) =>
          match gen_unique_variable
              (finish_block b (.branch (.var method_ptr) call_and_print badmethod)
                call_and_print)
              "callResult" with
          | (result, b) => do
            let (arguments, b) ← gen_expr_list fuel args b
            match gen_unique_label
                (push_instruction b (.call result (.var method_ptr) base_val arguments))
                "final" with
            | (final_label, b) =>
              some (.var result,
                finish_block
                  (finish_block
                    (finish_block b (.jump final_label) badptr)
                    (.fail "NotAPointer") badmethod)
                  (.fail "NoSuchMethod") final_label)

/-- `args.iter().map(|a| self.gen_expression(a))` of the method-call arm:
left-to-right evaluation threading the builder. -/
def gen_expr_list : Nat → List Expression → IRBuilder → Option (List Value × IRBuilder)
  | 0, _, _ => none
  | _ + 1, [], b => some ([], b)
  | fuel + 1, a :: rest, b => do
      let (v, b) ← gen_expression fuel a b
      let (vs, b) ← gen_expr_list fuel rest b
      some (v :: vs, b)

end

mutual

/-- ir_builder.rs `gen_statement`. -/
def gen_statement : Nat → Statement → IRBuilder → Option IRBuilder
  | 0, _, _ => none
  | fuel + 1, s, b =>
    match s with
    | .assignment variable_name expression => do
        let (val, b) ← gen_expression fuel expression b
        some (push_instruction b (.assign variable_name val))
    | .discard e => do
        let (_, b) ← gen_expression fuel e b
        some b
    | .printStmt e => do
        let (val, b) ← gen_expression fuel e b
        match gen_unique_variable b "untagged" with
        | (untagged, b) =>
          some (push_instruction
            (push_instruction b (.binOp untagged val "/" (.constant 2)))
            (.print (.var untagged)))
    | .ret e => do
        let (val, b) ← gen_expression fuel e b
        some { b with
          current_block := { b.current_block with control_transfer := .ret val }
          current_block_has_explicit_return := true }
    | .fieldWrite base field value => do
        let (_, b) ← gen_expression fuel (.fieldWrite base field value) b
        some b
    | .ifStmt condition then_body else_body => do
        let (cond, b) ← gen_expression fuel condition b
        match gen_unique_variable b "untaggedCond" with
        | (untagged_cond, b) =>
        match gen_unique_label
            (push_instruction b (.binOp untagged_cond cond "/" (.constant 2))) "then" with
        | (then_label, b) =>
        match gen_unique_label b "else" with
        | (else_label, b) =>
        match gen_unique_label b "merge" with
        | (merge_label, b) => do
          let b ← gen_stmt_list fuel then_body
            (finish_block b (.branch (.var untagged_cond) then_label else_label) then_label)
          let b ← gen_stmt_list fuel else_body
            (finish_block b
              (if b.current_block_has_explicit_return then b.current_block.control_transfer
               else .jump merge_label)
              else_label)
          some (finish_block b
            (if b.current_block_has_explicit_return then b.current_block.control_transfer
             else .jump merge_label)
            merge_label)
    | .ifOnly condition body => do
        match gen_unique_label b "then" with
        | (then_label, b) =>
        match gen_unique_label b "merge" with
        | (merge_label, b) => do
          let (cond, b) ← gen_expression fuel condition b
          match gen_unique_variable b "untaggedCond" with
          | (untagged_cond, b) => do
            let b ← gen_stmt_list fuel body
              (finish_block
                (push_instruction b (.binOp untagged_cond cond "/" (.constant 2)))
                (.branch (.var untagged_cond) then_label merge_label) then_label)
            some (finish_block b
              (if b.current_block_has_explicit_return then b.current_block.control_transfer
               else .jump merge_label)
              merge_label)
    | .whileStmt condition body => do
        match gen_unique_label b "condLabel" with
        | (cond_label, b) =>
        match gen_unique_label b "whileBody" with
        | (body_label, b) =>
        match gen_unique_label b "whileMerge" with
        | (merge_label, b) => do
          let (cond_val, b) ← gen_expression fuel condition
            (finish_block b (.jump cond_label) cond_label)
          match gen_unique_variable b "untaggedCond" with
          | (untagged_cond, b) => do
            let b ← gen_stmt_list fuel body
              (finish_block
                (push_instruction b (.binOp untagged_cond cond_val "/" (.constant 2)))
                (.branch (.var untagged_cond) body_label merge_label) body_label)
            some (finish_block b
              (if b.current_block_has_explicit_return then b.current_block.control_transfer
               else .jump cond_label)
              merge_label)

/-- `for statement in body { self.gen_statement(statement) }`. -/
def gen_stmt_list : Nat → List Statement → IRBuilder → Option IRBuilder
  | 0, _, _ => none
  | _ + 1, [], b => some b
  | fuel + 1, s :: rest, b => do
      gen_stmt_list fuel rest (← gen_statement fuel s b)

end

/-- ir_builder.rs `gen_method`. -/
def gen_method (fuel : Nat) (c : Class) (m : Method) (b : IRBuilder) : Option IRBuilder := do
  let function_name := m.name ++ c.name
  let args := "this" :: m.args
  let b := { b with
    current_block := ⟨function_name, [], .ret (.constant 0)⟩
    current_function_blocks := []
    current_block_has_explicit_return := false }
  let b := m.locals.foldl (fun b l => push_instruction b (.assign l (.constant 1))) b
  let b ← gen_stmt_list fuel m.body b
  some (finish_function b function_name args)

def gen_class_methods (fuel : Nat) (c : Class) : List Method → IRBuilder → Option IRBuilder
  | [], b => some b
  | m :: ms, b => do gen_class_methods fuel c ms (← gen_method fuel c m b)

def gen_classes (fuel : Nat) : List Class → IRBuilder → Option IRBuilder
  | [], b => some b
  | c :: cs, b => do gen_classes fuel cs (← gen_class_methods fuel c c.methods b)

/-- ir_builder.rs `gen_program`. -/
def gen_program (fuel : Nat) (p : AstProgram) : Option Program := do
  let b := gen_class_metadata IRBuilder.new p
  let b ← gen_classes fuel p.classes b
  let b := { b with
    current_block := ⟨"main", [], .ret (.constant 0)⟩
    current_function_blocks := []
    current_block_has_explicit_return := false }
  let b := p.main_locals.foldl (fun b l => push_instruction b (.assign l (.constant 1))) b
  let b ← gen_stmt_list fuel p.main_body b
  let b := finish_function b "main" []
  some ⟨b.globals, b.functions⟩

/-! ## CFG and SSA construction (cfg.rs)

HashSets of block indices are modelled as duplicate-free lists; set equality
is mutual containment, as for Rust HashSet.  Where the Rust code iterates a
HashMap / HashSet in hash order and the order can reach the output (the
φ-insertion loops, `max_by_key` over strict dominators), the embedding takes
the order as an explicit parameter constrained by a validity predicate: every
run of the Rust code corresponds to some valid parameter value. -/

structure CFG where
  block_map : List (String × Nat)
  predecessors : List (List Nat)
  successors : List (List Nat)
  entry : Nat
  num_blocks : Nat
deriving DecidableEq, Repr, Inhabited

/-- cfg.rs `CFG::new`.  The `.unwrap()` on branch/jump label lookups is
modelled with a default; lowering always emits resolvable labels. -/
def CFG.new (f : Function) : CFG :=
  let n := f.blocks.length
  let block_map := f.blocks.enum.foldl (fun m ib => (ib.2.label, ib.1) :: m) []
  let r := f.blocks.enum.foldl
    (fun (acc : List (List Nat) × List (List Nat)) ib =>
      let (preds, succs) := acc
      let idx := ib.1
      match ib.2.control_transfer with
      | .branch _ then_lab else_lab =>
          let then_idx := (block_map.lookup then_lab).getD 0
          let else_idx := (block_map.lookup else_lab).getD 0
          let succs := succs.set idx ((succs.getD idx []) ++ [then_idx, else_idx])
          let preds := preds.set then_idx ((preds.getD then_idx []) ++ [idx])
          let preds := preds.set else_idx ((preds.getD else_idx []) ++ [idx])
          (preds, succs)
      | .jump target =>
          let target_idx := (block_map.lookup target).getD 0
          (preds.set target_idx ((preds.getD target_idx []) ++ [idx]),
           succs.set idx ((succs.getD idx []) ++ [target_idx]))
      | .ret _ => (preds, succs)
      | .fail _ => (preds, succs))
    (List.replicate n [], List.replicate n [])
  ⟨block_map, r.1, r.2, 0, n⟩

def list_inter (a b : List Nat) : List Nat := a.filter (· ∈ b)

def set_insert (l : List Nat) (x : Nat) : List Nat := if x ∈ l then l else l ++ [x]

def list_set_eq (a b : List Nat) : Bool := a.all (· ∈ b) && b.all (· ∈ a)

/-- One pass of the `while changed` loop of `compute_dominator_sets`,
updating the array in place in index order exactly as the source does. -/
def dom_pass (preds : List (List Nat)) (n : Nat) (sets0 : List (List Nat)) :
    List (List Nat) × Bool :=
  ((List.range n).drop 1).foldl
    (fun acc idx =>
      let (sets, ch) := acc
      match preds.getD idx [] with
      | [] => (sets, ch)
      | p :: rest =>
          let new_dom := rest.foldl (fun d q => list_inter d (sets.getD q [])) (sets.getD p [])
          let new_dom := set_insert new_dom idx
          if list_set_eq new_dom (sets.getD idx []) then (sets, ch)
          else (sets.set idx new_dom, true))
    (sets0, false)

def dom_fix (preds : List (List Nat)) (n : Nat) : Nat → List (List Nat) → List (List Nat)
  | 0, sets => sets
  | fuel + 1, sets =>
      let r := dom_pass preds n sets
      if r.2 then dom_fix preds n fuel r.1 else r.1

/-- cfg.rs `compute_dominator_sets`.  Dominator sets only shrink, so the
Rust loop makes at most `n * n + 1` changing passes; the fuel dominates that
bound and the early exit stops at the same fixpoint the Rust loop stops at. -/
def compute_dominator_sets (preds : List (List Nat)) (n : Nat) : List (List Nat) :=
  let init := (List.range n).map (fun i => if i = 0 then [0] else List.range n)
  dom_fix preds n (n * n + n + 1) init

def strict_doms (doms : List (List Nat)) (idx : Nat) : List Nat :=
  (doms.getD idx []).filter (· ≠ idx)

def dom_size (doms : List (List Nat)) (d : Nat) : Nat := (doms.getD d []).length

/-- cfg.rs `compute_immediate_dominators` ends in
`.max_by_key(|d| dominators[d].len())` over a HashSet iteration: with ties it
returns an arbitrary element of maximal dominator-set size, depending on the
per-process randomized hash order.  `valid_idoms doms n imm` says `imm` is a
possible result; every Rust run produces a valid one. -/
def valid_idoms (doms : List (List Nat)) (n : Nat) (imm : List (Option Nat)) : Prop :=
  imm.length = n ∧ (n = 0 ∨ imm.get? 0 = some none) ∧
  ∀ i ∈ List.range n, 1 ≤ i →
    match imm.getD i none with
    | none => strict_doms doms i = []
    | some d => d ∈ strict_doms doms i ∧
        ∀ e ∈ strict_doms doms i, dom_size doms e ≤ dom_size doms d

instance (doms : List (List Nat)) (n : Nat) (imm : List (Option Nat)) :
    Decidable (valid_idoms doms n imm) := by
  unfold valid_idoms
  have : ∀ i, Decidable (1 ≤ i →
      match imm.getD i none with
      | none => strict_doms doms i = []
      | some d => d ∈ strict_doms doms i ∧
          ∀ e ∈ strict_doms doms i, dom_size doms e ≤ dom_size doms d) := by
    intro i
    rcases h : imm.getD i none with _ | d <;> simp [h] <;> infer_instance
  exact inferInstance

/-- The `while Some(runner) != idom(b)` walk of
`compute_dominance_frontiers`, with fuel (idom chains have length at most
`n`). -/
def df_walk (imm : List (Option Nat)) (idx : Nat) : Nat → Nat → List (List Nat) → List (List Nat)
  | 0, _, dfs => dfs
  | fuel + 1, runner, dfs =>
      if some runner = imm.getD idx none then dfs
      else
        let dfs := dfs.set runner (set_insert (dfs.getD runner []) idx)
        match imm.getD runner none with
        | some immediate_dominator => df_walk imm idx fuel immediate_dominator dfs
        | none => dfs

/-- cfg.rs `compute_dominance_frontiers`. -/
def compute_dominance_frontiers (imm : List (Option Nat)) (preds : List (List Nat)) (n : Nat) :
    List (List Nat) :=
  (List.range n).foldl
    (fun dfs idx =>
      if 2 ≤ (preds.getD idx []).length then
        (preds.getD idx []).foldl (fun dfs p => df_walk imm idx (n + 1) p dfs) dfs
      else dfs)
    (List.replicate n [])

def assoc_insert_block (m : List (String × List Nat)) (k : String) (v : Nat) :
    List (String × List Nat) :=
  match m with
  | [] => [(k, [v])]
  | (k', s) :: rest =>
      if k' = k then (k', set_insert s v) :: rest else (k', s) :: assoc_insert_block rest k v

/-- cfg.rs `collect_assignments`: variable → set of block indices containing
an `Assign` to it.  Keys are kept in first-occurrence order (the Rust
HashMap's hash order never reaches the output: each variable is processed
independently). -/
def collect_assignments (f : Function) : List (String × List Nat) :=
  f.blocks.enum.foldl
    (fun m ib =>
      ib.2.primitives.foldl
        (fun m p =>
          match p with
          | .assign dest _ => assoc_insert_block m dest ib.1
          | _ => m)
        m)
    []

/-- The work-stack closure of `insert_phi_functions` for one variable:
returns the set of blocks that receive a φ, in discovery order.  The stack
discipline only affects traversal order, not the resulting set. -/
def phi_closure (dfs : List (List Nat)) : Nat → List Nat → List Nat → List Nat
  | 0, _, has => has
  | _ + 1, [], has => has
  | fuel + 1, idx :: stack, has =>
      let r := (dfs.getD idx []).foldl
        (fun (acc : List Nat × List Nat) frontier =>
          if frontier ∈ acc.2 then acc else (frontier :: acc.1, acc.2 ++ [frontier]))
        (stack, has)
      phi_closure dfs fuel r.1 r.2

def assoc_insert_var (m : List (Nat × List String)) (k : Nat) (v : String) :
    List (Nat × List String) :=
  match m with
  | [] => [(k, [v])]
  | (k', s) :: rest =>
      if k' = k then (k', s ++ [v]) :: rest else (k', s) :: assoc_insert_var rest k v

/-- The `phis` map of `insert_phi_functions`: block index → variables that
need a φ there, in a canonical order. -/
def phi_sets (f : Function) (dfs : List (List Nat)) (n : Nat) : List (Nat × List String) :=
  (collect_assignments f).foldl
    (fun acc kv =>
      let blocks := phi_closure dfs (kv.2.length + n + 1) kv.2 []
      blocks.foldl (fun acc bidx => assoc_insert_var acc bidx kv.1) acc)
    []

/-- The Rust insertion loops `for (idx, vars) in phis { … for var in vars }`
iterate HashMap / HashSet in randomized hash order; `valid_phi_order sets
order` says `order` is one possible iteration. -/
def valid_phi_order (sets order : List (Nat × List String)) : Prop :=
  (order.map Prod.fst).Perm (sets.map Prod.fst) ∧
  ∀ kv ∈ order, ∃ vs, (kv.1, vs) ∈ sets ∧ kv.2.Perm vs

instance (sets order : List (Nat × List String)) : Decidable (valid_phi_order sets order) := by
  unfold valid_phi_order
  have : ∀ kv : Nat × List String, Decidable (∃ vs, (kv.1, vs) ∈ sets ∧ kv.2.Perm vs) := by
    intro kv
    have h : (∃ vs, (kv.1, vs) ∈ sets ∧ kv.2.Perm vs) ↔
        (sets.any (fun q => kv.1 = q.1 && decide (kv.2.Perm q.2)) = true) := by
      simp only [List.any_eq_true, Bool.and_eq_true, decide_eq_true_eq]
      constructor
      · rintro ⟨vs, hmem, hperm⟩; exact ⟨(kv.1, vs), hmem, rfl, hperm⟩
      · rintro ⟨q, hmem, heq, hperm⟩; exact ⟨q.2, by rw [heq]; exact hmem, hperm⟩
    exact decidable_of_iff _ h.symm
  exact inferInstance

def modify_block (f : Function) (idx : Nat) (g : BasicBlock → BasicBlock) : Function :=
  { f with blocks := f.blocks.set idx (g (f.blocks.getD idx default)) }

/-- The insertion loop at the end of `insert_phi_functions`: for each listed
block, compute the predecessor labels once, then insert one φ per variable
at position 0 of the block. -/
def apply_phi_inserts (preds : List (List Nat)) (order : List (Nat × List String))
    (f : Function) : Function :=
  order.foldl
    (fun f kv =>
      let pred_labels := (preds.getD kv.1 []).map (fun p => (f.blocks.getD p default).label)
      kv.2.foldl
        (fun f v =>
          modify_block f kv.1 (fun blk =>
            { blk with primitives :=
                Primitive.phi v (pred_labels.map (fun l => (l, Value.var v))) :: blk.primitives }))
        f)
    f

/-- cfg.rs `build_dominator_tree`: invert the idom vector to parent →
children lists. -/
def build_dominator_tree (imm : List (Option Nat)) (n : Nat) : List (List Nat) :=
  imm.enum.foldl
    (fun tree cp =>
      match cp.2 with
      | some parent => tree.set parent ((tree.getD parent []) ++ [cp.1])
      | none => tree)
    (List.replicate n [])

/-- cfg.rs `rename_value`.  The Rust parameter `stacks` is spelled `stks`
(`stacks` is reserved by Mathlib); variable stacks have their top at the
head of the list. -/
def rename_value (stks : List (String × List String)) (v : Value) : Value :=
  match v with
  | .var name =>
      match stks.lookup name with
      | some (current :: _) => .var current
      | _ => v
  | _ => v

/-- cfg.rs `rename_uses`. -/
def rename_uses (stks : List (String × List String)) : Primitive → Primitive
  | .assign dest value => .assign dest (rename_value stks value)
  | .binOp dest lhs op rhs => .binOp dest (rename_value stks lhs) op (rename_value stks rhs)
  | .call dest func receiver args =>
      .call dest (rename_value stks func) (rename_value stks receiver)
        (args.map (rename_value stks))
  | .print val => .print (rename_value stks val)
  | .getElt dest arr idx => .getElt dest (rename_value stks arr) (rename_value stks idx)
  | .setElt arr idx val =>
      .setElt (rename_value stks arr) (rename_value stks idx) (rename_value stks val)
  | .load dest addr => .load dest (rename_value stks addr)
  | .store addr val => .store (rename_value stks addr) (rename_value stks val)
  | .phi dest args => .phi dest args
  | .alloc dest size => .alloc dest size

/-- cfg.rs `rename_control_transfer`. -/
def rename_control_transfer (stks : List (String × List String)) :
    ControlTransfer → ControlTransfer
  | .branch cond then_lab else_lab => .branch (rename_value stks cond) then_lab else_lab
  | .ret val => .ret (rename_value stks val)
  | .jump target => .jump target
  | .fail message => .fail message

/-- cfg.rs `get_dest`. -/
def get_dest : Primitive → Option String
  | .assign dest _ => some dest
  | .binOp dest _ _ _ => some dest
  | .call dest _ _ _ => some dest
  | .phi dest _ => some dest
  | .alloc dest _ => some dest
  | .getElt dest _ _ => some dest
  | .load dest _ => some dest
  | _ => none

/-- Writing through the `&mut String` returned by `get_dest`. -/
def set_dest (p : Primitive) (new_name : String) : Primitive :=
  match p with
  | .assign _ value => .assign new_name value
  | .binOp _ lhs op rhs => .binOp new_name lhs op rhs
  | .call _ func receiver args => .call new_name func receiver args
  | .phi _ args => .phi new_name args
  | .alloc _ size => .alloc new_name size
  | .getElt _ arr idx => .getElt new_name arr idx
  | .load _ addr => .load new_name addr
  | p => p

def stack_push (stks : List (String × List String)) (k : String) (v : String) :
    List (String × List String) :=
  match stks with
  | [] => [(k, [v])]
  | (k', s) :: rest => if k' = k then (k', v :: s) :: rest else (k', s) :: stack_push rest k v

def stack_drop (stks : List (String × List String)) (k : String) (c : Nat) :
    List (String × List String) :=
  match stks with
  | [] => []
  | (k', s) :: rest => if k' = k then (k', s.drop c) :: rest else (k', s) :: stack_drop rest k c

def pushed_incr (pushed : List (String × Nat)) (k : String) : List (String × Nat) :=
  match pushed with
  | [] => [(k, 1)]
  | (k', c) :: rest => if k' = k then (k', c + 1) :: rest else (k', c) :: pushed_incr rest k

/-- The threaded state of `rename`: the version stks, the fresh-name
counter, and the `var_types` map. -/
structure RenameState where
  stks : List (String × List String)
  counter : Nat
  var_types : List (String × Ty)
deriving DecidableEq, Repr, Inhabited

/-- The primitive loop at the top of `rename`: rename uses, then give the
destination the next counter value, pushing it on the stack of the original
name and recording the push for the later pop. -/
def rename_prims :
    List Primitive → RenameState → List (String × Nat) →
      List Primitive × RenameState × List (String × Nat)
  | [], st, pushed => ([], st, pushed)
  | p :: ps, st, pushed =>
      let p := rename_uses st.stks p
      match get_dest p with
      | some old_name =>
          let new_name := toString st.counter
          let vt :=
            match st.var_types.lookup old_name with
            | some t => (new_name, t) :: st.var_types
            | none => st.var_types
          let p := set_dest p new_name
          let st : RenameState :=
            ⟨stack_push st.stks old_name new_name, st.counter + 1, vt⟩
          let r := rename_prims ps st (pushed_incr pushed old_name)
          (p :: r.1, r.2)
      | none =>
          let r := rename_prims ps st pushed
          (p :: r.1, r.2)

/-- The successor pass of `rename`: rewrite φ arguments whose label is this
block to the current stack top of the original name. -/
def fill_phi_args (this_label : String) (stks : List (String × List String))
    (blk : BasicBlock) : BasicBlock :=
  { blk with primitives := blk.primitives.map (fun p =>
      match p with
      | .phi dest args => .phi dest (args.map (fun lv =>
          if lv.1 = this_label then
            match lv.2 with
            | .var var_name =>
                match stks.lookup var_name with
                | some (current :: _) => (lv.1, Value.var current)
                | _ => lv
            | _ => lv
          else lv))
      | p => p) }

/-- cfg.rs `rename`, the dominator-tree walk, with fuel for the recursion
depth (parent chains in an idom forest are duplicate-free, so `num_blocks`
fuel suffices for any tree the Rust code builds). -/
def rename (tree succs : List (List Nat)) :
    Nat → Nat → Function → RenameState → Function × RenameState
  | 0, _, f, st => (f, st)
  | fuel + 1, idx, f, st =>
      match f.blocks.get? idx with
      | none => (f, st)
      | some blk =>
          let r := rename_prims blk.primitives st []
          let prims' := r.1
          let st := r.2.1
          let pushed := r.2.2
          let ct' := rename_control_transfer st.stks blk.control_transfer
          let blk' : BasicBlock := { blk with primitives := prims', control_transfer := ct' }
          let f := { f with blocks := f.blocks.set idx blk' }
          let this_label := blk.label
          let f := (succs.getD idx []).foldl
            (fun f s => modify_block f s (fill_phi_args this_label st.stks)) f
          let r2 := (tree.getD idx []).foldl
            (fun (acc : Function × RenameState) child =>
              rename tree succs fuel child acc.1 acc.2)
            (f, st)
          let f := r2.1
          let st := r2.2
          let stks := pushed.foldl (fun stks kc => stack_drop stks kc.1 kc.2) st.stks
          (f, { st with stks := stks })

/-- The dominance frontiers used by φ-insertion, as a function of the idom
choice. -/
def frontiers_of (immDF : List (Option Nat)) (f : Function) : List (List Nat) :=
  let cfg := CFG.new f
  compute_dominance_frontiers immDF cfg.predecessors cfg.num_blocks

/-- The canonical φ placement of `insert_phi_functions` for a function. -/
def phi_sets_of (immDF : List (Option Nat)) (f : Function) : List (Nat × List String) :=
  phi_sets f (frontiers_of immDF f) (CFG.new f).num_blocks

/-- The dominator sets `convert_to_ssa` computes for a function. -/
def dominators_of (f : Function) : List (List Nat) :=
  let cfg := CFG.new f
  compute_dominator_sets cfg.predecessors cfg.num_blocks

/-- cfg.rs `convert_to_ssa`, parametrized by the hash-order-dependent pieces
of a run: `immTree` is the idom choice used for the dominator tree, and
`phi_order` is the φ-work `insert_phi_functions` ends up performing — a
valid run passes a `phi_order` that is a hash-order permutation of
`phi_sets_of immDF f` for a valid idom choice `immDF` (the function computes
immediate dominators twice; the two runs may break ties differently). -/
def convert_to_ssa (immTree : List (Option Nat)) (phi_order : List (Nat × List String))
    (f : Function) (vt : List (String × Ty)) : Function :=
  let cfg := CFG.new f
  let n := cfg.num_blocks
  let f1 := apply_phi_inserts cfg.predecessors phi_order f
  let tree := build_dominator_tree immTree n
  (rename tree cfg.successors n cfg.entry f1 ⟨[], 0, vt⟩).1

/-! ## Concrete input programs and functions used when settling the claims -/

/-- A function whose only BinOp uses a variable whose constant definition
occurs later in program order. -/
def c5_cex_fun : Function :=
  ⟨"g", [], [⟨"e", [.binOp "t" (.var "x") "+" (.constant 1), .assign "x" (.constant 5)],
    .ret (.constant 0)⟩]⟩

/-- A function with a division by zero between resolvable constants. -/
def c5_div_fun : Function :=
  ⟨"g", [], [⟨"e", [.assign "a" (.constant 1), .binOp "t" (.var "a") "/" (.constant 0)],
    .ret (.constant 0)⟩]⟩

/-- A function with one foldable BinOp. -/
def fold_example : Function :=
  ⟨"g", [], [⟨"e", [.assign "a" (.constant 2), .binOp "t" (.var "a") "*" (.constant 3)],
    .ret (.var "t")⟩]⟩

/-- A block in which two distinct, previously unseen variables feed two
BinOps with swapped operands. -/
def c4_fun : Function :=
  ⟨"f", [], [⟨"b", [.binOp "t1" (.var "x") "-" (.var "y"), .binOp "t2" (.var "y") "-" (.var "x")],
    .ret (.constant 0)⟩]⟩

/-- Source program: one class `A` with no fields and no methods. -/
def c1_prog : AstProgram := ⟨[⟨"A", [], []⟩], [], []⟩

/-- The builder state after `gen_class_metadata` has processed `c1_prog`. -/
def c1_builder : IRBuilder := gen_class_metadata IRBuilder.new c1_prog

/-- Source program whose main body is `_ = (1 + 2)`. -/
def c2_prog : AstProgram := ⟨[], [], [.discard (.binop (.constant 1) .plus (.constant 2))]⟩

/-- Source program: class `A` with method `m` having local `a`, and a main
with local `z`. -/
def c3_prog : AstProgram :=
  ⟨[⟨"A", [], [⟨"m", [], ["a"], [.ret (.constant 0)]⟩]⟩], ["z"], []⟩

/-- Source program whose main contains two `if`s in which both branches
return, leaving the two merge blocks (which assign `x`) unreachable. -/
def c8_prog : AstProgram :=
  ⟨[], ["x"],
    [.ifStmt (.constant 1) [.ret (.constant 1)] [.ret (.constant 2)],
     .assignment "x" (.constant 3),
     .ifStmt (.constant 1) [.ret (.constant 1)] [.ret (.constant 2)],
     .assignment "x" (.constant 4)]⟩

/-- The `main` function lowered from `c8_prog`. -/
def c8_fun : Function :=
  match gen_program 20 c8_prog with
  | some pr => pr.functions.getD 0 default
  | none => default

/-- A valid idom choice for `c8_fun`: the four unreachable-region blocks
(indices 3–6, dominator sets of full size 7) all pick their maximal-size
strict dominators among themselves. -/
def c8_imm : List (Option Nat) := [none, some 0, some 0, some 4, some 3, some 3, some 3]

/-- Source program whose main assigns `x` and `y` in both branches of an
`if`, so the merge block needs φs for two variables. -/
def c10_prog : AstProgram :=
  ⟨[], ["x", "y"],
    [.ifStmt (.constant 1)
      [.assignment "x" (.constant 3), .assignment "y" (.constant 4)]
      [.assignment "x" (.constant 5), .assignment "y" (.constant 6)],
     .printStmt (.var "x")]⟩

/-- The `main` function lowered from `c10_prog`. -/
def c10_fun : Function :=
  match gen_program 20 c10_prog with
  | some pr => pr.functions.getD 0 default
  | none => default

/-- The (unique) valid idom vector for `c10_fun`. -/
def c10_imm : List (Option Nat) := [none, some 0, some 0, some 0]

/-- The pipeline main.rs runs on each function after lowering, with all
passes enabled: SSA construction, value numbering, constant folding, then
printing the one-function program. -/
def pipeline_output (immTree : List (Option Nat)) (phi_order : List (Nat × List String))
    (f : Function) : String :=
  print_program ⟨[], [fold_constants (value_numbering (convert_to_ssa immTree phi_order f []))]⟩

/-- Source program for the C9 witness: two classes sharing method name `m`. -/
def c9_prog : AstProgram :=
  ⟨[⟨"A", [], [⟨"m", [], [], []⟩, ⟨"p", [], [], []⟩]⟩,
    ⟨"B", [], [⟨"q", [], [], []⟩, ⟨"m", [], [], []⟩]⟩], [], []⟩

/-- The class and method of `c3_prog`. -/
def c3_class : Class := c3_prog.classes.getD 0 default

def c3_method : Method := c3_class.methods.getD 0 default

/-! ## Predicates used to state the Fail-kind and local-initialization
claims -/

/-- The four `fail` kinds of the IR (ir.rs). -/
def allowed_fail_msgs : List String :=
  ["NotAPointer", "NotANumber", "NoSuchField", "NoSuchMethod"]

/-- A control transfer whose `fail` message, if any, is one of the four IR
kinds. -/
def ct_ok (ct : ControlTransfer) : Prop :=
  ∀ m, ct = .fail m → m ∈ allowed_fail_msgs

def blocks_ok (bs : List BasicBlock) : Prop :=
  ∀ blk ∈ bs, ct_ok blk.control_transfer

/-- Builder invariant: every control transfer already emitted — in finished
functions, in the blocks of the function under construction, and on the
current block — has an allowed fail kind. -/
def builder_fails_ok (b : IRBuilder) : Prop :=
  blocks_ok b.current_function_blocks ∧ ct_ok b.current_block.control_transfer ∧
  ∀ fn ∈ b.functions, blocks_ok fn.blocks

/-- The initialization primitives `gen_method` / `gen_program` push for the
declared locals: tagged zero, i.e. `Constant(1)`. -/
def local_inits (ls : List String) : List Primitive :=
  ls.map (fun l => Primitive.assign l (.constant 1))

/-- Builder invariant: the entry block of the function under construction
(the first pushed block, or the current block while none is pushed) starts
with the given primitives. -/
def entry_prefix_ok (inits : List Primitive) (b : IRBuilder) : Prop :=
  inits <+: (b.current_function_blocks.headD b.current_block).primitives


/-- A builder predicate preserved by every state operation the expression
and statement generators perform. -/
structure GenInv (P : IRBuilder → Prop) : Prop where
  push : ∀ b p, P b → P (push_instruction b p)
  fin : ∀ b t lab, P b → (ct_ok t ∨ t = b.current_block.control_transfer) →
    P (finish_block b t lab)
  ret_set : ∀ b v, P b →
    P { b with current_block := { b.current_block with control_transfer := .ret v }
               current_block_has_explicit_return := true }
  tcnt : ∀ b n, P b → P { b with temp_counter := n }
  bcnt : ∀ b n, P b → P { b with block_counter := n }


/-- The lowering of `c2_prog` and its one function. -/
def c2_lowered : Program := (gen_program 10 c2_prog).getD default


def c2_main : Function := c2_lowered.functions.getD 0 default


/-- The first block of `c2_main` whose control transfer is a `fail`. -/
def c2_failblock : BasicBlock :=
  (c2_main.blocks.filter
    (fun blk => match blk.control_transfer with | .fail _ => true | _ => false)).getD 0 default


/-- The block `finish_function` closes off: the current block, its control
transfer replaced by `Ret(Constant(0))` unless it already is a `Ret`. -/
def ff_cur (b : IRBuilder) : BasicBlock :=
  match b.current_block.control_transfer with
  | .ret _ => b.current_block
  | _ => { b.current_block with control_transfer := .ret (.constant 0) }


/-- The id lists built by `add_ids` hold, at position `i`, an entry whose id
is `i`: ids are positions, assigned in first-observation order. -/
def pos_ok (ids : List (String × Nat)) : Prop :=
  ∀ i (h : i < ids.length), (ids.get ⟨i, h⟩).2 = i


/-- The second class (`B`) of `c9_prog`. -/
def c9_B : Class := c9_prog.classes.getD 1 default

/-! ## Literal snapshots of the C8 / C10 lowering runs

The kernel cannot re-evaluate the full `gen_program` pipeline inside one
`decide`; the runs are therefore checked statement by statement against
literal builder snapshots and glued with the `gen_stmt_list` equations. -/

def c8_blk_main : BasicBlock :=
  ⟨"main", [.assign "x" (.constant 1), .binOp "untaggedCond0" (.constant 3) "/" (.constant 2)],
   .branch (.var "untaggedCond0") "then0" "else1"⟩

def c8_blk_then0 : BasicBlock := ⟨"then0", [], .ret (.constant 3)⟩

def c8_blk_else1 : BasicBlock := ⟨"else1", [], .ret (.constant 5)⟩

def c8_blk_merge2 : BasicBlock :=
  ⟨"merge2", [.assign "x" (.constant 7), .binOp "untaggedCond1" (.constant 3) "/" (.constant 2)],
   .branch (.var "untaggedCond1") "then3" "else4"⟩

def c8_blk_then3 : BasicBlock := ⟨"then3", [], .ret (.constant 3)⟩

def c8_blk_else4 : BasicBlock := ⟨"else4", [], .ret (.constant 5)⟩

def c8_blk_merge5 : BasicBlock := ⟨"merge5", [.assign "x" (.constant 9)], .ret (.constant 0)⟩

def c8_b0 : IRBuilder :=
  ⟨0, 0, ⟨"main", [.assign "x" (.constant 1)], .ret (.constant 0)⟩, [], [], [], [], [], [], false⟩

def c8_b1 : IRBuilder :=
  ⟨1, 3, ⟨"merge2", [], .ret (.constant 0)⟩, [c8_blk_main, c8_blk_then0, c8_blk_else1],
   [], [], [], [], [], false⟩

def c8_b2 : IRBuilder :=
  ⟨1, 3, ⟨"merge2", [.assign "x" (.constant 7)], .ret (.constant 0)⟩,
   [c8_blk_main, c8_blk_then0, c8_blk_else1], [], [], [], [], [], false⟩

def c8_b3 : IRBuilder :=
  ⟨2, 6, ⟨"merge5", [], .ret (.constant 0)⟩,
   [c8_blk_main, c8_blk_then0, c8_blk_else1, c8_blk_merge2, c8_blk_then3, c8_blk_else4],
   [], [], [], [], [], false⟩

def c8_b4 : IRBuilder :=
  ⟨2, 6, ⟨"merge5", [.assign "x" (.constant 9)], .ret (.constant 0)⟩,
   [c8_blk_main, c8_blk_then0, c8_blk_else1, c8_blk_merge2, c8_blk_then3, c8_blk_else4],
   [], [], [], [], [], false⟩

/-- The lowering of `c8_prog`, as a literal. -/
def c8_low : Program :=
  ⟨[], [⟨"main", [],
    [c8_blk_main, c8_blk_then0, c8_blk_else1, c8_blk_merge2, c8_blk_then3, c8_blk_else4,
     c8_blk_merge5]⟩]⟩

def c8_fun_c : Function :=
  ⟨"main", [],
   [c8_blk_main, c8_blk_then0, c8_blk_else1, c8_blk_merge2, c8_blk_then3, c8_blk_else4,
    c8_blk_merge5]⟩

def cfg8_c : CFG :=
  ⟨[("merge5", 6), ("else4", 5), ("then3", 4), ("merge2", 3), ("else1", 2), ("then0", 1),
    ("main", 0)],
   [[], [0], [0], [], [3], [3], []],
   [[1, 2], [], [], [4, 5], [], [], []],
   0, 7⟩

def doms8_c : List (List Nat) :=
  [[0], [0, 1], [0, 2], [0, 1, 2, 3, 4, 5, 6], [0, 1, 2, 3, 4, 5, 6], [0, 1, 2, 3, 4, 5, 6],
   [0, 1, 2, 3, 4, 5, 6]]

/-- `c8_fun` after `convert_to_ssa` with idom choice `c8_imm` and no φs:
only the reachable blocks 0–2 are renamed; the unreachable region keeps the
original destinations, including `x` twice. -/
def c8_ssa_c : Function :=
  ⟨"main", [],
   [⟨"main", [.assign "0" (.constant 1), .binOp "1" (.constant 3) "/" (.constant 2)],
     .branch (.var "1") "then0" "else1"⟩,
    c8_blk_then0, c8_blk_else1, c8_blk_merge2, c8_blk_then3, c8_blk_else4, c8_blk_merge5]⟩

def c10_blk_main : BasicBlock :=
  ⟨"main", [.assign "x" (.constant 1), .assign "y" (.constant 1),
            .binOp "untaggedCond0" (.constant 3) "/" (.constant 2)],
   .branch (.var "untaggedCond0") "then0" "else1"⟩

def c10_blk_then0 : BasicBlock :=
  ⟨"then0", [.assign "x" (.constant 7), .assign "y" (.constant 9)], .jump "merge2"⟩

def c10_blk_else1 : BasicBlock :=
  ⟨"else1", [.assign "x" (.constant 11), .assign "y" (.constant 13)], .jump "merge2"⟩

def c10_blk_merge2 : BasicBlock :=
  ⟨"merge2", [.binOp "untagged1" (.var "x") "/" (.constant 2), .print (.var "untagged1")],
   .ret (.constant 0)⟩

def c10_b0 : IRBuilder :=
  ⟨0, 0, ⟨"main", [.assign "x" (.constant 1), .assign "y" (.constant 1)], .ret (.constant 0)⟩,
   [], [], [], [], [], [], false⟩

def c10_b1 : IRBuilder :=
  ⟨1, 3, ⟨"merge2", [], .ret (.constant 0)⟩, [c10_blk_main, c10_blk_then0, c10_blk_else1],
   [], [], [], [], [], false⟩

def c10_b2 : IRBuilder :=
  ⟨2, 3, ⟨"merge2", [.binOp "untagged1" (.var "x") "/" (.constant 2),
                     .print (.var "untagged1")], .ret (.constant 0)⟩,
   [c10_blk_main, c10_blk_then0, c10_blk_else1], [], [], [], [], [], false⟩

/-- The lowering of `c10_prog`, as a literal. -/
def c10_low : Program :=
  ⟨[], [⟨"main", [], [c10_blk_main, c10_blk_then0, c10_blk_else1, c10_blk_merge2]⟩]⟩

def c10_fun_c : Function :=
  ⟨"main", [], [c10_blk_main, c10_blk_then0, c10_blk_else1, c10_blk_merge2]⟩

def cfg10_c : CFG :=
  ⟨[("merge2", 3), ("else1", 2), ("then0", 1), ("main", 0)],
   [[], [0], [0], [1, 2]], [[1, 2], [3], [3], []], 0, 4⟩

def doms10_c : List (List Nat) := [[0], [0, 1], [0, 2], [0, 3]]

/-- The printed pipeline output when the merge-block φs are inserted in the
order `x`, `y`. -/
def c10_outA : String :=
  "data:\n\ncode:\n\nmain:\n  %0 = 1\n  %1 = 1\n  %2 = 1\n  if %2 then then0 else else1\n\nthen0:\n  %3 = 7\n  %4 = 9\n  jump merge2\n\nelse1:\n  %5 = 11\n  %6 = 13\n  jump merge2\n\nmerge2:\n  %7 = phi(then0, %4, else1, %6)\n  %8 = phi(then0, %3, else1, %5)\n  %9 = %8 / 2\n  print(%9)\n  ret 0\n"

/-- The printed pipeline output when the merge-block φs are inserted in the
order `y`, `x`. -/
def c10_outB : String :=
  "data:\n\ncode:\n\nmain:\n  %0 = 1\n  %1 = 1\n  %2 = 1\n  if %2 then then0 else else1\n\nthen0:\n  %3 = 7\n  %4 = 9\n  jump merge2\n\nelse1:\n  %5 = 11\n  %6 = 13\n  jump merge2\n\nmerge2:\n  %7 = phi(then0, %3, else1, %5)\n  %8 = phi(then0, %4, else1, %6)\n  %9 = %7 / 2\n  print(%9)\n  ret 0\n"

end Oop

namespace Oop

/-! ## Lemmas about constant folding -/

theorem try_fold_constant_none_of_not_binOp {p : Primitive} {m : List (String × Int)}
    (h : ∀ d l op r, p ≠ .binOp d l op r) : try_fold_constant p m = none := by
  cases p <;> first
    | rfl
    | exact absurd rfl (h _ _ _ _)

theorem try_fold_constant_some {p q : Primitive} {m : List (String × Int)}
    (h : try_fold_constant p m = some q) :
    (∃ d l op r, p = .binOp d l op r) ∧ ∃ d v, q = .assign d v := by
  unfold try_fold_constant at h
  split at h
  case h_1 d l op r =>
    refine ⟨⟨d, l, op, r, rfl⟩, ?_⟩
    split at h
    case h_1 lv rv _ =>
      split at h
      · cases h; exact ⟨_, _, rfl⟩
      · cases h
    case h_2 => cases h
  case h_2 => cases h

theorem record_const_binOp (m : List (String × Int)) (d : String) (l : Value) (op : String)
    (r : Value) : record_const m (.binOp d l op r) = m := rfl

theorem binop_count_prims_cons (p : Primitive) (ps : List Primitive) :
    binop_count_prims (p :: ps) = binop_count_prims ps + (if is_binop p then 1 else 0) :=
  List.countP_cons is_binop p ps

theorem fold_block_prims_mono (ps : List Primitive) :
    ∀ m, (fold_block_prims ps m true).2.2 = true := by
  induction ps with
  | nil => intro m; rfl
  | cons p ps ih =>
      intro m
      simp only [fold_block_prims]
      split <;> exact ih _

theorem fold_block_prims_map (ps : List Primitive) :
    ∀ m ch, (fold_block_prims ps m ch).2.1 = record_prims m ps := by
  induction ps with
  | nil => intro m ch; rfl
  | cons p ps ih =>
      intro m ch
      simp only [fold_block_prims, record_prims, List.foldl_cons]
      split <;> simpa [record_prims] using ih (record_const m p) _

theorem fold_block_prims_unchanged (ps : List Primitive) :
    ∀ m ch, (fold_block_prims ps m ch).2.2 = false →
      (fold_block_prims ps m ch).1 = ps ∧ ch = false := by
  induction ps with
  | nil => intro m ch h; exact ⟨rfl, h⟩
  | cons p ps ih =>
      intro m ch
      simp only [fold_block_prims]
      split
      · intro h
        rw [fold_block_prims_mono] at h
        cases h
      · intro h
        obtain ⟨h1, h2⟩ := ih (record_const m p) ch h
        exact ⟨by rw [h1], h2⟩

theorem fold_block_prims_count_le (ps : List Primitive) :
    ∀ m ch, binop_count_prims (fold_block_prims ps m ch).1 ≤ binop_count_prims ps := by
  induction ps with
  | nil => intro m ch; exact Nat.le_refl _
  | cons p ps ih =>
      intro m ch
      simp only [fold_block_prims]
      split
      case h_1 folded heq =>
        obtain ⟨⟨d, l, op, r, hp⟩, ⟨d', v, hq⟩⟩ := try_fold_constant_some heq
        subst hp hq
        rw [binop_count_prims_cons, binop_count_prims_cons]
        simp only [is_binop, if_true, if_false, Bool.false_eq_true]
        have := ih (record_const m (.binOp d l op r)) true
        omega
      case h_2 =>
        rw [binop_count_prims_cons, binop_count_prims_cons]
        have := ih (record_const m p) ch
        omega

theorem fold_block_prims_count_lt (ps : List Primitive) :
    ∀ m, (fold_block_prims ps m false).2.2 = true →
      binop_count_prims (fold_block_prims ps m false).1 < binop_count_prims ps := by
  induction ps with
  | nil => intro m h; cases h
  | cons p ps ih =>
      intro m
      simp only [fold_block_prims]
      split
      case h_1 folded heq =>
        intro _
        obtain ⟨⟨d, l, op, r, hp⟩, ⟨d', v, hq⟩⟩ := try_fold_constant_some heq
        subst hp hq
        rw [binop_count_prims_cons, binop_count_prims_cons]
        simp only [is_binop, if_true, if_false, Bool.false_eq_true]
        have := fold_block_prims_count_le ps (record_const m (.binOp d l op r)) true
        omega
      case h_2 =>
        intro h
        rw [binop_count_prims_cons, binop_count_prims_cons]
        have := ih (record_const m p) h
        omega

/-- Sum of per-block BinOp counts, so that `binop_count f` is
`binop_count_blocks f.blocks`. -/
theorem binop_count_eq (f : Function) :
    binop_count f = (f.blocks.map (fun b => binop_count_prims b.primitives)).sum := rfl

theorem fold_blocks_mono (bs : List BasicBlock) :
    ∀ m, (fold_blocks bs m true).2.2 = true := by
  induction bs with
  | nil => intro m; rfl
  | cons b bs ih =>
      intro m
      simp only [fold_blocks]
      rw [fold_block_prims_mono]
      exact ih _

theorem fold_blocks_unchanged (bs : List BasicBlock) :
    ∀ m ch, (fold_blocks bs m ch).2.2 = false →
      (fold_blocks bs m ch).1 = bs ∧ ch = false := by
  induction bs with
  | nil => intro m ch h; exact ⟨rfl, h⟩
  | cons b bs ih =>
      intro m ch h
      simp only [fold_blocks] at h ⊢
      obtain ⟨h1, h2⟩ := ih _ _ h
      obtain ⟨h3, h4⟩ := fold_block_prims_unchanged b.primitives m ch h2
      refine ⟨?_, h4⟩
      rw [h1, h3]

theorem fold_blocks_count_le (bs : List BasicBlock) :
    ∀ m ch, ((fold_blocks bs m ch).1.map (fun b => binop_count_prims b.primitives)).sum ≤
      (bs.map (fun b => binop_count_prims b.primitives)).sum := by
  induction bs with
  | nil => intro m ch; exact Nat.le_refl _
  | cons b bs ih =>
      intro m ch
      simp only [fold_blocks, List.map_cons, List.sum_cons]
      have h1 := fold_block_prims_count_le b.primitives m ch
      have h2 := ih (fold_block_prims b.primitives m ch).2.1 (fold_block_prims b.primitives m ch).2.2
      omega

theorem fold_blocks_count_lt (bs : List BasicBlock) :
    ∀ m, (fold_blocks bs m false).2.2 = true →
      ((fold_blocks bs m false).1.map (fun b => binop_count_prims b.primitives)).sum <
        (bs.map (fun b => binop_count_prims b.primitives)).sum := by
  induction bs with
  | nil => intro m h; cases h
  | cons b bs ih =>
      intro m h
      simp only [fold_blocks, List.map_cons, List.sum_cons] at h ⊢
      rcases hc : (fold_block_prims b.primitives m false).2.2 with _ | _
      · rw [hc] at h
        have h1 := ih (fold_block_prims b.primitives m false).2.1 h
        have h2 := fold_block_prims_count_le b.primitives m false
        omega
      · have h1 := fold_block_prims_count_lt b.primitives m hc
        have h2 := fold_blocks_count_le bs (fold_block_prims b.primitives m false).2.1 true
        omega

theorem fold_iter_unchanged (f : Function) (h : (fold_iter f).2 = false) :
    (fold_iter f).1 = f := by
  have h1 := fold_blocks_unchanged f.blocks [] false h
  show ({ f with blocks := (fold_blocks f.blocks [] false).1 } : Function) = f
  rw [h1.1]

theorem fold_iter_count_le (f : Function) : binop_count (fold_iter f).1 ≤ binop_count f := by
  exact fold_blocks_count_le f.blocks [] false

theorem fold_iter_count_lt (f : Function) (h : (fold_iter f).2 = true) :
    binop_count (fold_iter f).1 < binop_count f := by
  exact fold_blocks_count_lt f.blocks [] h

/-- `fold_loop` reaches the Rust loop's fixpoint whenever the fuel exceeds
the BinOp count: the returned function is left unchanged (with flag `false`)
by one more iteration. -/
theorem fold_loop_fix : ∀ n f, binop_count f < n →
    fold_iter (fold_loop n f) = (fold_loop n f, false) := by
  intro n
  induction n with
  | zero => intro f h; cases h
  | succ n ih =>
      intro f h
      simp only [fold_loop]
      rcases hc : (fold_iter f).2 with _ | _
      · simp only [hc, if_false, Bool.false_eq_true]
        have he := fold_iter_unchanged f hc
        rw [he]
        exact Prod.ext he hc
      · simp only [hc, if_true]
        have hlt := fold_iter_count_lt f hc
        exact ih (fold_iter f).1 (by omega)

theorem fold_constants_fix (f : Function) :
    fold_iter (fold_constants f) = (fold_constants f, false) :=
  fold_loop_fix (binop_count f + 1) f (Nat.lt_succ_self _)

theorem fold_block_prims_nofold (ps : List Primitive) :
    ∀ m i d l op r,
      (fold_block_prims ps m false).2.2 = false →
      ps.get? i = some (.binOp d l op r) →
      try_fold_constant (.binOp d l op r) (record_prims m (ps.take i)) = none := by
  induction ps with
  | nil => intro m i d l op r _ hi; cases hi
  | cons p ps ih =>
      intro m i d l op r hch hi
      rcases htf : try_fold_constant p (record_const m p) with _ | folded
      · simp only [fold_block_prims, htf] at hch
        cases i with
        | zero =>
            simp only [List.get?_cons_zero, Option.some_inj] at hi
            subst hi
            simpa [record_prims, record_const] using htf
        | succ i =>
            simp only [List.get?_cons_succ] at hi
            have := ih (record_const m p) i d l op r hch hi
            simpa [record_prims] using this
      · simp only [fold_block_prims, htf] at hch
        simp [fold_block_prims_mono] at hch

theorem fold_blocks_nofold (bs : List BasicBlock) :
    ∀ m bi i d l op r b,
      (fold_blocks bs m false).2.2 = false →
      bs.get? bi = some b →
      b.primitives.get? i = some (.binOp d l op r) →
      try_fold_constant (.binOp d l op r)
        (record_prims (record_blocks m (bs.take bi)) (b.primitives.take i)) = none := by
  induction bs with
  | nil => intro m bi i d l op r b _ hb; cases hb
  | cons blk bs ih =>
      intro m bi i d l op r b hch hb hi
      simp only [fold_blocks] at hch
      rcases hc2 : (fold_block_prims blk.primitives m false).2.2 with _ | _
      · rw [hc2] at hch
        cases bi with
        | zero =>
            simp only [List.get?_cons_zero, Option.some_inj] at hb
            subst hb
            simpa [record_blocks] using fold_block_prims_nofold _ m i d l op r hc2 hi
        | succ bi =>
            simp only [List.get?_cons_succ] at hb
            have hmap := fold_block_prims_map blk.primitives m false
            have := ih (fold_block_prims blk.primitives m false).2.1 bi i d l op r b hch hb hi
            rw [hmap] at this
            simpa [record_blocks] using this
      · rw [hc2] at hch
        simp [fold_blocks_mono] at hch

theorem fold_constants_no_foldable_left (f : Function) (bi i : Nat) (b : BasicBlock)
    (d : String) (l : Value) (op : String) (r : Value)
    (hb : (fold_constants f).blocks.get? bi = some b)
    (hi : b.primitives.get? i = some (.binOp d l op r)) :
    try_fold_constant (.binOp d l op r) (prefix_const_map (fold_constants f) bi i) = none := by
  have hfix := fold_constants_fix f
  have h2 : (fold_blocks (fold_constants f).blocks [] false).2.2 = false := by
    have := congrArg Prod.snd hfix
    simpa [fold_iter] using this
  have h := fold_blocks_nofold (fold_constants f).blocks [] bi i d l op r b h2 hb hi
  rw [List.get?_eq_getElem?] at hb
  simpa [prefix_const_map, hb] using h

/-! ## Claims C5, C6, C7 -/

/-- C6: `fold_constants` terminates for every function: an iteration that
reports no change returns the function unchanged (so the `while changed`
loop exits), no iteration ever increases the number of BinOp primitives, an
iteration that reports a change strictly decreases that number, and the
fixpoint (an iteration that changes nothing) is reached. -/
theorem c6_fold_constants_terminates (f : Function) :
    ((fold_iter f).2 = false → (fold_iter f).1 = f) ∧
    binop_count (fold_iter f).1 ≤ binop_count f ∧
    ((fold_iter f).2 = true → binop_count (fold_iter f).1 < binop_count f) ∧
    fold_iter (fold_constants f) = (fold_constants f, false) :=
  ⟨fold_iter_unchanged f, fold_iter_count_le f, fold_iter_count_lt f, fold_constants_fix f⟩

theorem c6_witness :
    (fold_iter fold_example).2 = true ∧
    binop_count (fold_iter fold_example).1 < binop_count fold_example :=
  ⟨by decide, (c6_fold_constants_terminates fold_example).2.2.1 (by decide)⟩

/-- C7: constant folding is idempotent: running `fold_constants` a second
time immediately after it has run to fixpoint changes nothing. -/
theorem c7_fold_constants_idempotent (f : Function) :
    fold_constants (fold_constants f) = fold_constants f := by
  have hfix := fold_constants_fix f
  show fold_loop (binop_count (fold_constants f) + 1) (fold_constants f) = fold_constants f
  simp [fold_loop, hfix]

/-- C5 (amended): after `fold_constants` reaches its fixpoint, every BinOp
whose two operands resolve to integers through the constant map accumulated
in program order from the primitives preceding it has been rewritten to an
`Assign` of the table's result; equivalently, for any BinOp still present at
the fixpoint whose operands so resolve, the fold table is undefined (zero
divisor, or an operator outside the table).  A constant assignment occurring
later in program order than the BinOp does not enable a fold (see the
counterexample). -/
theorem c5_fold_fixpoint_folds_resolvable (f : Function) (bi i : Nat) (b : BasicBlock)
    (d : String) (l : Value) (op : String) (r : Value) (lv rv : Int)
    (hb : (fold_constants f).blocks.get? bi = some b)
    (hi : b.primitives.get? i = some (.binOp d l op r))
    (hl : resolve_operand (prefix_const_map (fold_constants f) bi i) l = some lv)
    (hr : resolve_operand (prefix_const_map (fold_constants f) bi i) r = some rv) :
    evaluate_binop op lv rv = none := by
  have h := fold_constants_no_foldable_left f bi i b d l op r hb hi
  unfold try_fold_constant at h
  simp only [hl, hr] at h
  rcases he : evaluate_binop op lv rv with _ | v
  · rfl
  · simp [he] at h

theorem c5_witness :
    evaluate_binop "/" 1 0 = none :=
  c5_fold_fixpoint_folds_resolvable c5_div_fun 0 1
    ⟨"e", [.assign "a" (.constant 1), .binOp "t" (.var "a") "/" (.constant 0)], .ret (.constant 0)⟩
    "t" (.var "a") "/" (.constant 0) 1 0 (by decide) (by decide) (by decide) (by decide)

/-- C5 counterexample: in `c5_cex_fun` the BinOp `t = x + 1` precedes the
constant assignment `x = 5`; both operands resolve through the function's
constant map and the table gives `6`, yet at the fixpoint the primitive is
still the BinOp, not `Assign t (Constant 6)` — the pass never reruns a block
with the constants recorded later in program order. -/
theorem c5_counterexample :
    (const_map_of c5_cex_fun).lookup "x" = some 5 ∧
    evaluate_binop "+" 5 1 = some 6 ∧
    ((fold_constants c5_cex_fun).blocks.get? 0).map (fun b => b.primitives.get? 0) =
      some (some (.binOp "t" (.var "x") "+" (.constant 1))) ∧
    (Primitive.binOp "t" (.var "x") "+" (.constant 1)) ≠ (.assign "t" (.constant 6)) :=
  ⟨by decide, by decide, by decide, by decide⟩

/-! ## Claim C4 -/

/-- C4 (code bug): in `get_valnum` the previously-unseen-`Variable` arm
reads the counter and records the bindings but — unlike the `Constant` and
`Global` arms — never increments `valnum_count`, so the two distinct unseen
variables `x` and `y` both receive value number 0.  The block
`[t1 = x - y; t2 = y - x]` then keys both BinOps as `("-", 0, 0)` and value
numbering rewrites the second into the copy `t2 = t1`, conflating `y - x`
with `x - y`. -/
theorem c4_valnum_counter_bug :
    (get_valnum (.var "x") VnState.empty).1 = 0 ∧
    (get_valnum (.var "y") (get_valnum (.var "x") VnState.empty).2).1 = 0 ∧
    (get_valnum (.var "y") (get_valnum (.var "x") VnState.empty).2).2.valnum_count = 0 ∧
    "x" ≠ "y" ∧
    (value_numbering c4_fun).blocks.map (fun b => b.primitives) =
      [[.binOp "t1" (.var "x") "-" (.var "y"), .assign "t2" (.var "t1")]] ∧
    (Value.var "y", Value.var "x") ≠ (Value.var "x", Value.var "y") :=
  ⟨by decide, by decide, by decide, by decide, by decide, by decide⟩

/-! ## Claim C1 -/

/-- C1 (amended): lowering the class reference `@C` emits an `Alloc` of
`2 + |fields(C)|` slots, a `Store` of `@vtblC` at slot 0, a BinOp computing
the address of slot 1 (`obj + 8`), and a `Store` of `@fieldsC` there, and
yields `Variable(obj)`; an instance of `C` occupies `2 + |fields(C)|` slots
with slot 0 the vtable pointer and slot 1 the field-map pointer. -/
theorem c1_classref_layout (fuel : Nat) (b : IRBuilder) (class_name : String)
    (md : ClassMetadata) (h : b.class_metadata_map.lookup class_name = some md) :
    gen_expression (fuel + 1) (.classRef class_name) b =
      some (.var ("objAddr" ++ toString b.temp_counter),
        { b with
          temp_counter := b.temp_counter + 1 + 1
          current_block := { b.current_block with primitives :=
            b.current_block.primitives ++
              [.alloc ("objAddr" ++ toString b.temp_counter) (2 + (md.field_count : Int)),
               .store (.var ("objAddr" ++ toString b.temp_counter))
                 (.global ("vtbl" ++ class_name)),
               .binOp ("fieldsAddr" ++ toString (b.temp_counter + 1))
                 (.var ("objAddr" ++ toString b.temp_counter)) "+" (.constant 8),
               .store (.var ("fieldsAddr" ++ toString (b.temp_counter + 1)))
                 (.global ("fields" ++ class_name))] } }) := by
  simp [gen_expression, h, gen_unique_variable, push_instruction]

theorem c1_witness :
    gen_expression 1 (.classRef "A") c1_builder =
      some (.var "objAddr0",
        { c1_builder with
          temp_counter := 2
          current_block := { c1_builder.current_block with primitives :=
            [.alloc "objAddr0" 2,
             .store (.var "objAddr0") (.global "vtblA"),
             .binOp "fieldsAddr1" (.var "objAddr0") "+" (.constant 8),
             .store (.var "fieldsAddr1") (.global "fieldsA")] } }) :=
  (c1_classref_layout 0 c1_builder "A" ⟨0, [], []⟩ (by decide)).trans (by decide)

/-- C1 counterexample: for the zero-field class `A` the claim demands an
`Alloc` of `1 + 0 = 1` slot followed by a single `Store`; the code emits an
`Alloc` of 2 slots and two `Store`s (vtable pointer at slot 0, field-map
pointer at slot 1). -/
theorem c1_counterexample :
    ((gen_expression 1 (.classRef "A") c1_builder).map
        (fun r => r.2.current_block.primitives)) =
      some [.alloc "objAddr0" 2,
            .store (.var "objAddr0") (.global "vtblA"),
            .binOp "fieldsAddr1" (.var "objAddr0") "+" (.constant 8),
            .store (.var "fieldsAddr1") (.global "fieldsA")] ∧
    (2 : Int) ≠ 1 + 0 ∧
    ((gen_expression 1 (.classRef "A") c1_builder).map
        (fun r => r.2.current_block.primitives.countP
          (fun p => match p with | .store _ _ => true | _ => false))) = some 2 ∧
    (2 : Nat) ≠ 1 :=
  ⟨by decide, by decide, by decide, by decide⟩

/-! ## Builder invariants preserved by the generators -/

theorem ct_ok_jump (t : String) : ct_ok (.jump t) := fun _ hm => nomatch hm

theorem ct_ok_branch (c : Value) (t e : String) : ct_ok (.branch c t e) := fun _ hm => nomatch hm

theorem ct_ok_ret (v : Value) : ct_ok (.ret v) := fun _ hm => nomatch hm

theorem ct_ok_fail_allowed {m : String} (h : m ∈ allowed_fail_msgs) : ct_ok (.fail m) := by
  intro m' hm'
  cases hm'
  exact h

theorem ct_choice_ok (b : IRBuilder) (L : String) :
    ct_ok (if b.current_block_has_explicit_return then b.current_block.control_transfer
           else .jump L)
    ∨ (if b.current_block_has_explicit_return then b.current_block.control_transfer
       else .jump L) = b.current_block.control_transfer := by
  split
  · exact Or.inr rfl
  · exact Or.inl (ct_ok_jump _)

theorem foldl_inv {α : Type} (P : IRBuilder → Prop) (F : IRBuilder → α → IRBuilder)
    (hF : ∀ b x, P b → P (F b x)) : ∀ (xs : List α) b, P b → P (xs.foldl F b) := by
  intro xs
  induction xs with
  | nil => intro b hb; exact hb
  | cons x xs ih => intro b hb; exact ih _ (hF b x hb)

theorem inv_uvar {P : IRBuilder → Prop} (H : GenInv P) {b : IRBuilder} {pfx name : String}
    {b' : IRBuilder} (h : gen_unique_variable b pfx = (name, b')) (hb : P b) : P b' := by
  unfold gen_unique_variable at h
  obtain ⟨-, rfl⟩ := Prod.mk.injEq .. ▸ h
  exact H.tcnt _ _ hb

theorem inv_ulab {P : IRBuilder → Prop} (H : GenInv P) {b : IRBuilder} {pfx name : String}
    {b' : IRBuilder} (h : gen_unique_label b pfx = (name, b')) (hb : P b) : P b' := by
  unfold gen_unique_label at h
  obtain ⟨-, rfl⟩ := Prod.mk.injEq .. ▸ h
  exact H.bcnt _ _ hb

/-- Any `GenInv` predicate is carried from the input builder to the output
builder by `gen_expression` and `gen_expr_list`. -/
theorem gen_expression_inv (P : IRBuilder → Prop) (H : GenInv P) : ∀ fuel,
    (∀ e b v b', gen_expression fuel e b = some (v, b') → P b → P b') ∧
    (∀ es b vs b', gen_expr_list fuel es b = some (vs, b') → P b → P b') := by
  intro fuel
  induction fuel with
  | zero =>
      constructor
      · intro e b v b' h; exact (Option.noConfusion h)
      · intro es b vs b' h; exact (Option.noConfusion h)
  | succ fuel ih =>
      obtain ⟨ihe, ihl⟩ := ih
      constructor
      · intro e b v b' h hb
        cases e with
        | constant n =>
            unfold gen_expression at h
            obtain ⟨-, rfl⟩ := Prod.mk.injEq .. ▸ Option.some_inj.mp h
            exact hb
        | var name =>
            unfold gen_expression at h
            obtain ⟨-, rfl⟩ := Prod.mk.injEq .. ▸ Option.some_inj.mp h
            exact hb
        | thisExpr =>
            unfold gen_expression at h
            obtain ⟨-, rfl⟩ := Prod.mk.injEq .. ▸ Option.some_inj.mp h
            exact hb
        | binop lhs op rhs =>
            unfold gen_expression at h
            rw [Option.bind_eq_bind, Option.bind_eq_some] at h
            obtain ⟨⟨left, b1⟩, hx, h⟩ := h
            have hb1 : P b1 := ihe _ _ _ _ hx hb
            split at h
            rename_i hpq
            cases hpq
            rw [Option.bind_eq_some] at h
            obtain ⟨⟨right, b2⟩, hy, h⟩ := h
            have hb2 : P b2 := ihe _ _ _ _ hy hb1
            split at h
            rename_i hpq2
            cases hpq2
            iterate 16 (all_goals try (split at h))
            all_goals obtain ⟨-, rfl⟩ := Prod.mk.injEq .. ▸ Option.some_inj.mp h
            all_goals
              repeat first
                | assumption
                | refine H.push _ _ ?_
                | refine inv_uvar H (by assumption) ?_
                | refine inv_ulab H (by assumption) ?_
                | refine H.fin _ _ _ ?_ (Or.inl (ct_ok_branch _ _ _))
                | refine H.fin _ _ _ ?_ (Or.inl (ct_ok_jump _))
                | refine H.fin _ _ _ ?_ (Or.inl (ct_ok_fail_allowed (by decide)))
        | classRef class_name =>
            rw [gen_expression] at h
            rw [Option.bind_eq_bind, Option.bind_eq_some] at h
            obtain ⟨md, hmd, h⟩ := h
            split at h
            rename_i u1 r1 bA hq1
            split at h
            rename_i u2 r2 bB hq2
            obtain ⟨-, rfl⟩ := Prod.mk.injEq .. ▸ Option.some_inj.mp h
            exact H.push _ _ (H.push _ _
              (inv_uvar H hq2 (H.push _ _ (H.push _ _ (inv_uvar H hq1 hb)))))
        | fieldRead base field_name =>
            unfold gen_expression at h
            rw [Option.bind_eq_bind, Option.bind_eq_some] at h
            obtain ⟨⟨base_val, b1⟩, hx, h⟩ := h
            have hb1 : P b1 := ihe _ _ _ _ hx hb
            split at h
            rename_i hpq
            cases hpq
            repeat (split at h)
            rw [Option.bind_eq_bind, Option.bind_eq_some] at h
            obtain ⟨gid, hgid, h⟩ := h
            repeat (split at h)
            obtain ⟨-, rfl⟩ := Prod.mk.injEq .. ▸ Option.some_inj.mp h
            repeat first
              | assumption
              | refine H.push _ _ ?_
              | refine inv_uvar H (by assumption) ?_
              | refine inv_ulab H (by assumption) ?_
              | refine H.fin _ _ _ ?_ (Or.inl (ct_ok_branch _ _ _))
              | refine H.fin _ _ _ ?_ (Or.inl (ct_ok_jump _))
              | refine H.fin _ _ _ ?_ (Or.inl (ct_ok_fail_allowed (by decide)))
        | fieldWrite base field_name value =>
            unfold gen_expression at h
            rw [Option.bind_eq_bind, Option.bind_eq_some] at h
            obtain ⟨⟨base_val, b1⟩, hx, h⟩ := h
            have hb1 : P b1 := ihe _ _ _ _ hx hb
            split at h
            rename_i hpq
            cases hpq
            rw [Option.bind_eq_some] at h
            obtain ⟨⟨val, b2⟩, hy, h⟩ := h
            have hb2 : P b2 := ihe _ _ _ _ hy hb1
            split at h
            rename_i hpq2
            cases hpq2
            repeat (split at h)
            rw [Option.bind_eq_bind, Option.bind_eq_some] at h
            obtain ⟨gid, hgid, h⟩ := h
            repeat (split at h)
            obtain ⟨-, rfl⟩ := Prod.mk.injEq .. ▸ Option.some_inj.mp h
            repeat first
              | assumption
              | refine H.push _ _ ?_
              | refine inv_uvar H (by assumption) ?_
              | refine inv_ulab H (by assumption) ?_
              | refine H.fin _ _ _ ?_ (Or.inl (ct_ok_branch _ _ _))
              | refine H.fin _ _ _ ?_ (Or.inl (ct_ok_jump _))
              | refine H.fin _ _ _ ?_ (Or.inl (ct_ok_fail_allowed (by decide)))
        | methodCall base method_name args =>
            unfold gen_expression at h
            rw [Option.bind_eq_bind, Option.bind_eq_some] at h
            obtain ⟨⟨base_val, b1⟩, hx, h⟩ := h
            have hb1 : P b1 := ihe _ _ _ _ hx hb
            split at h
            rename_i hpq
            cases hpq
            repeat (split at h)
            rw [Option.bind_eq_bind, Option.bind_eq_some] at h
            obtain ⟨gid, hgid, h⟩ := h
            repeat (split at h)
            rw [Option.bind_eq_bind, Option.bind_eq_some] at h
            obtain ⟨⟨arguments, b2⟩, hargs, h⟩ := h
            split at h
            rename_i hpq2
            cases hpq2
            repeat (split at h)
            obtain ⟨-, rfl⟩ := Prod.mk.injEq .. ▸ Option.some_inj.mp h
            refine ?_
            have hb2 : P b2 := by
              refine ihl _ _ _ _ hargs ?_
              repeat first
                | assumption
                | refine H.push _ _ ?_
                | refine inv_uvar H (by assumption) ?_
                | refine inv_ulab H (by assumption) ?_
                | refine H.fin _ _ _ ?_ (Or.inl (ct_ok_branch _ _ _))
            repeat first
              | assumption
              | refine H.push _ _ ?_
              | refine inv_uvar H (by assumption) ?_
              | refine inv_ulab H (by assumption) ?_
              | refine H.fin _ _ _ ?_ (Or.inl (ct_ok_branch _ _ _))
              | refine H.fin _ _ _ ?_ (Or.inl (ct_ok_jump _))
              | refine H.fin _ _ _ ?_ (Or.inl (ct_ok_fail_allowed (by decide)))
      · intro es b vs b' h hb
        cases es with
        | nil =>
            unfold gen_expr_list at h
            obtain ⟨-, rfl⟩ := Prod.mk.injEq .. ▸ Option.some_inj.mp h
            exact hb
        | cons a rest =>
            unfold gen_expr_list at h
            rw [Option.bind_eq_bind, Option.bind_eq_some] at h
            obtain ⟨⟨v1, b1⟩, hx, h⟩ := h
            split at h
            rename_i hpq
            cases hpq
            rw [Option.bind_eq_bind, Option.bind_eq_some] at h
            obtain ⟨⟨vs2, b2⟩, hy, h⟩ := h
            split at h
            rename_i hpq2
            cases hpq2
            obtain ⟨-, rfl⟩ := Prod.mk.injEq .. ▸ Option.some_inj.mp h
            exact ihl _ _ _ _ hy (ihe _ _ _ _ hx hb)

/-- Any `GenInv` predicate is carried from the input builder to the output
builder by `gen_statement` and `gen_stmt_list`. -/
theorem gen_statement_inv (P : IRBuilder → Prop) (H : GenInv P) : ∀ fuel,
    (∀ s b b', gen_statement fuel s b = some b' → P b → P b') ∧
    (∀ ss b b', gen_stmt_list fuel ss b = some b' → P b → P b') := by
  intro fuel
  induction fuel with
  | zero =>
      constructor
      · intro s b b' h; exact (Option.noConfusion h)
      · intro ss b b' h; exact (Option.noConfusion h)
  | succ fuel ih =>
      obtain ⟨ihs, ihl⟩ := ih
      have HE : ∀ e b v b', gen_expression fuel e b = some (v, b') → P b → P b' :=
        (gen_expression_inv P H fuel).1
      constructor
      · intro s b b' h hb
        cases s with
        | assignment variable_name expression =>
            rw [gen_statement] at h
            rw [Option.bind_eq_bind, Option.bind_eq_some] at h
            obtain ⟨⟨val, b1⟩, hx, h⟩ := h
            split at h
            rename_i hpq
            cases hpq
            obtain rfl := Option.some_inj.mp h
            exact H.push _ _ (HE _ _ _ _ hx hb)
        | discard e =>
            rw [gen_statement] at h
            rw [Option.bind_eq_bind, Option.bind_eq_some] at h
            obtain ⟨⟨val, b1⟩, hx, h⟩ := h
            split at h
            rename_i hpq
            cases hpq
            obtain rfl := Option.some_inj.mp h
            exact HE _ _ _ _ hx hb
        | printStmt e =>
            rw [gen_statement] at h
            rw [Option.bind_eq_bind, Option.bind_eq_some] at h
            obtain ⟨⟨val, b1⟩, hx, h⟩ := h
            split at h
            rename_i hpq
            cases hpq
            split at h
            rename_i u1 r1 bA hq1
            obtain rfl := Option.some_inj.mp h
            exact H.push _ _ (H.push _ _ (inv_uvar H hq1 (HE _ _ _ _ hx hb)))
        | ret e =>
            rw [gen_statement] at h
            rw [Option.bind_eq_bind, Option.bind_eq_some] at h
            obtain ⟨⟨val, b1⟩, hx, h⟩ := h
            split at h
            rename_i hpq
            cases hpq
            obtain rfl := Option.some_inj.mp h
            exact H.ret_set _ _ (HE _ _ _ _ hx hb)
        | fieldWrite base field value =>
            rw [gen_statement] at h
            rw [Option.bind_eq_bind, Option.bind_eq_some] at h
            obtain ⟨⟨val, b1⟩, hx, h⟩ := h
            split at h
            rename_i hpq
            cases hpq
            obtain rfl := Option.some_inj.mp h
            exact HE _ _ _ _ hx hb
        | ifStmt condition then_body else_body =>
            rw [gen_statement] at h
            rw [Option.bind_eq_bind, Option.bind_eq_some] at h
            obtain ⟨⟨cond, b1⟩, hx, h⟩ := h
            split at h
            rename_i hpq
            cases hpq
            split at h
            rename_i u1 r1 bA hq1
            split at h
            rename_i u2 l1 bB hq2
            split at h
            rename_i u3 l2 bC hq3
            split at h
            rename_i u4 l3 bD hq4
            rw [Option.bind_eq_bind, Option.bind_eq_some] at h
            obtain ⟨bT, hthen, h⟩ := h
            rw [Option.bind_eq_some] at h
            obtain ⟨bE, helse, h⟩ := h
            obtain rfl := Option.some_inj.mp h
            refine H.fin _ _ _ ?_ (ct_choice_ok _ _)
            refine ihl _ _ _ helse ?_
            refine H.fin _ _ _ ?_ (ct_choice_ok _ _)
            refine ihl _ _ _ hthen ?_
            refine H.fin _ _ _ ?_ (Or.inl (ct_ok_branch _ _ _))
            exact inv_ulab H hq4 (inv_ulab H hq3 (inv_ulab H hq2
              (H.push _ _ (inv_uvar H hq1 (HE _ _ _ _ hx hb)))))
        | ifOnly condition body =>
            rw [gen_statement] at h
            split at h
            rename_i u1 l1 bA hq1
            split at h
            rename_i u2 l2 bB hq2
            rw [Option.bind_eq_bind, Option.bind_eq_some] at h
            obtain ⟨⟨cond, b1⟩, hx, h⟩ := h
            split at h
            rename_i hpq
            cases hpq
            split at h
            rename_i u3 r1 bC hq3
            rw [Option.bind_eq_bind, Option.bind_eq_some] at h
            obtain ⟨bT, hbody, h⟩ := h
            obtain rfl := Option.some_inj.mp h
            refine H.fin _ _ _ ?_ (ct_choice_ok _ _)
            refine ihl _ _ _ hbody ?_
            refine H.fin _ _ _ ?_ (Or.inl (ct_ok_branch _ _ _))
            refine H.push _ _ ?_
            exact inv_uvar H hq3 (HE _ _ _ _ hx (inv_ulab H hq2 (inv_ulab H hq1 hb)))
        | whileStmt condition body =>
            rw [gen_statement] at h
            split at h
            rename_i u1 l1 bA hq1
            split at h
            rename_i u2 l2 bB hq2
            split at h
            rename_i u3 l3 bC hq3
            rw [Option.bind_eq_bind, Option.bind_eq_some] at h
            obtain ⟨⟨cond_val, b1⟩, hx, h⟩ := h
            split at h
            rename_i hpq
            cases hpq
            split at h
            rename_i u4 r1 bD hq4
            rw [Option.bind_eq_bind, Option.bind_eq_some] at h
            obtain ⟨bT, hbody, h⟩ := h
            obtain rfl := Option.some_inj.mp h
            refine H.fin _ _ _ ?_ (ct_choice_ok _ _)
            refine ihl _ _ _ hbody ?_
            refine H.fin _ _ _ ?_ (Or.inl (ct_ok_branch _ _ _))
            refine H.push _ _ ?_
            refine inv_uvar H hq4 ?_
            refine HE _ _ _ _ hx ?_
            refine H.fin _ _ _ ?_ (Or.inl (ct_ok_jump _))
            exact inv_ulab H hq3 (inv_ulab H hq2 (inv_ulab H hq1 hb))
      · intro ss b b' h hb
        cases ss with
        | nil =>
            rw [gen_stmt_list] at h
            obtain rfl := Option.some_inj.mp h
            exact hb
        | cons s rest =>
            rw [gen_stmt_list] at h
            rw [Option.bind_eq_bind, Option.bind_eq_some] at h
            obtain ⟨b1, hs, h⟩ := h
            exact ihl _ _ _ h (ihs _ _ _ hs hb)

theorem forall_mem_nil {α : Type} (Q : α → Prop) : ∀ x ∈ ([] : List α), Q x :=
  fun _ hx => nomatch hx

theorem blocks_ok_nil : blocks_ok [] :=
  fun _ hx => nomatch hx

/-- `builder_fails_ok` is a `GenInv`: every builder operation of the
generators keeps all emitted fail kinds among the four IR kinds. -/
theorem builder_fails_ok_geninv : GenInv builder_fails_ok := by
  constructor
  · intro b p hb
    exact hb
  · intro b t lab hb hct
    refine ⟨?_, ct_ok_ret _, hb.2.2⟩
    intro blk hblk
    rcases List.mem_append.mp hblk with hmem | hmem
    · exact hb.1 blk hmem
    · rcases List.mem_singleton.mp hmem with rfl
      rcases hct with hct | hct
      · exact hct
      · exact hct ▸ hb.2.1
  · intro b v hb
    exact ⟨hb.1, ct_ok_ret _, hb.2.2⟩
  · intro b n hb
    exact hb
  · intro b n hb
    exact hb

theorem finish_function_fails_ok (b : IRBuilder) (name : String) (args : List String)
    (hb : builder_fails_ok b) : builder_fails_ok (finish_function b name args) := by
  refine ⟨blocks_ok_nil, ct_ok_ret _, ?_⟩
  intro fn hfn
  rcases List.mem_append.mp hfn with hmem | hmem
  · exact hb.2.2 fn hmem
  · rcases List.mem_singleton.mp hmem with rfl
    intro blk hblk
    rcases List.mem_append.mp hblk with hmem | hmem
    · exact hb.1 blk hmem
    · rcases List.mem_singleton.mp hmem with rfl
      split
      · exact hb.2.1
      · exact ct_ok_ret _

theorem gen_method_fails_ok {fuel : Nat} {c : Class} {m : Method} {b b' : IRBuilder}
    (h : gen_method fuel c m b = some b') (hb : builder_fails_ok b) :
    builder_fails_ok b' := by
  simp only [gen_method] at h
  rw [Option.bind_eq_bind, Option.bind_eq_some] at h
  obtain ⟨b1, hbody, h⟩ := h
  obtain rfl := Option.some_inj.mp h
  refine finish_function_fails_ok _ _ _ ?_
  refine (gen_statement_inv _ builder_fails_ok_geninv fuel).2 _ _ _ hbody ?_
  refine foldl_inv builder_fails_ok _
    (fun b l hb => builder_fails_ok_geninv.push b _ hb) _ _ ?_
  exact ⟨blocks_ok_nil, ct_ok_ret _, hb.2.2⟩

theorem gen_class_methods_fails_ok (fuel : Nat) (c : Class) : ∀ ms b b',
    gen_class_methods fuel c ms b = some b' → builder_fails_ok b →
    builder_fails_ok b' := by
  intro ms
  induction ms with
  | nil =>
      intro b b' h hb
      rw [gen_class_methods] at h
      obtain rfl := Option.some_inj.mp h
      exact hb
  | cons m ms ih =>
      intro b b' h hb
      rw [gen_class_methods] at h
      rw [Option.bind_eq_bind, Option.bind_eq_some] at h
      obtain ⟨b1, hm, h⟩ := h
      exact ih _ _ h (gen_method_fails_ok hm hb)

theorem gen_classes_fails_ok (fuel : Nat) : ∀ cs b b',
    gen_classes fuel cs b = some b' → builder_fails_ok b → builder_fails_ok b' := by
  intro cs
  induction cs with
  | nil =>
      intro b b' h hb
      rw [gen_classes] at h
      obtain rfl := Option.some_inj.mp h
      exact hb
  | cons c cs ih =>
      intro b b' h hb
      rw [gen_classes] at h
      rw [Option.bind_eq_bind, Option.bind_eq_some] at h
      obtain ⟨b1, hc, h⟩ := h
      exact ih _ _ h (gen_class_methods_fails_ok fuel c c.methods _ _ hc hb)

theorem gen_class_metadata_fails_ok (b : IRBuilder) (p : AstProgram)
    (hb : builder_fails_ok b) : builder_fails_ok (gen_class_metadata b p) := by
  unfold gen_class_metadata
  refine foldl_inv builder_fails_ok _ ?_ _ _ ?_
  · intro b c hb
    exact hb
  · exact hb

theorem builder_fails_ok_new : builder_fails_ok IRBuilder.new :=
  ⟨blocks_ok_nil, ct_ok_ret _, forall_mem_nil _⟩

theorem gen_program_fails_ok {fuel : Nat} {p : AstProgram} {prog : Program}
    (h : gen_program fuel p = some prog) : ∀ fn ∈ prog.functions, blocks_ok fn.blocks := by
  simp only [gen_program] at h
  rw [Option.bind_eq_bind, Option.bind_eq_some] at h
  obtain ⟨b1, hcls, h⟩ := h
  rw [Option.bind_eq_some] at h
  obtain ⟨b2, hmain, h⟩ := h
  obtain rfl := Option.some_inj.mp h
  have hb2 : builder_fails_ok b2 := by
    refine (gen_statement_inv _ builder_fails_ok_geninv fuel).2 _ _ _ hmain ?_
    refine foldl_inv builder_fails_ok _
      (fun b l hb => builder_fails_ok_geninv.push b _ hb) _ _ ?_
    have hb1 : builder_fails_ok b1 :=
      gen_classes_fails_ok fuel p.classes _ _ hcls
        (gen_class_metadata_fails_ok _ _ builder_fails_ok_new)
    exact ⟨blocks_ok_nil, ct_ok_ret _, hb1.2.2⟩
  exact (finish_function_fails_ok b2 "main" [] hb2).2.2

/-- C2: every `Fail` control transfer in the lowering of a source program has
one of the four IR kinds `NotAPointer`, `NotANumber`, `NoSuchField`,
`NoSuchMethod` — the spec's claim that only `NotAPointer` is ever emitted is
corrected, since the arithmetic tag checks, field-offset checks and vtable
checks emit the other three kinds. -/
theorem c2_fail_kinds (fuel : Nat) (p : AstProgram) (prog : Program) (fn : Function)
    (blk : BasicBlock) (m : String) (h : gen_program fuel p = some prog)
    (hfn : fn ∈ prog.functions) (hblk : blk ∈ fn.blocks)
    (hm : blk.control_transfer = .fail m) : m ∈ allowed_fail_msgs :=
  gen_program_fails_ok h fn hfn blk hblk m hm

/-- C2 witness: the lowering of `_ = (1 + 2)` contains a block failing with
`NotANumber`, and the theorem places that kind among the four IR kinds. -/
theorem c2_witness :
    gen_program 10 c2_prog = some c2_lowered ∧ c2_main ∈ c2_lowered.functions ∧
    c2_failblock ∈ c2_main.blocks ∧
    c2_failblock.control_transfer = .fail "NotANumber" ∧
    "NotANumber" ∈ allowed_fail_msgs :=
  ⟨by decide, by decide, by decide, by decide,
   c2_fail_kinds 10 c2_prog c2_lowered c2_main c2_failblock "NotANumber"
     (by decide) (by decide) (by decide) (by decide)⟩

/-- C2 counterexample to the spec's wording: the typed lowering emits a
`Fail` whose kind is `NotANumber`, not `NotAPointer` — the spec's "only
`NotAPointer` is emitted by the typed lowering" is false. -/
theorem c2_counterexample :
    c2_failblock ∈ c2_main.blocks ∧ c2_main ∈ c2_lowered.functions ∧
    (gen_program 10 c2_prog).isSome = true ∧
    c2_failblock.control_transfer = .fail "NotANumber" ∧
    "NotANumber" ≠ "NotAPointer" :=
  ⟨by decide, by decide, by decide, by decide, by decide⟩

/-- `entry_prefix_ok` is a `GenInv`: once the entry block of the function
under construction starts with `inits`, every later builder operation keeps
that prefix. -/
theorem entry_prefix_geninv (inits : List Primitive) : GenInv (entry_prefix_ok inits) := by
  constructor
  · intro b p hb
    unfold entry_prefix_ok at hb ⊢
    cases hc : b.current_function_blocks with
    | nil =>
        simp only [push_instruction, hc, List.headD_nil] at hb ⊢
        exact hb.trans (List.prefix_append _ _)
    | cons blk rest =>
        simp only [push_instruction, hc, List.headD_cons] at hb ⊢
        exact hb
  · intro b t lab hb hct
    unfold entry_prefix_ok at hb ⊢
    cases hc : b.current_function_blocks with
    | nil =>
        simp only [finish_block, hc, List.nil_append, List.headD_nil, List.headD_cons] at hb ⊢
        exact hb
    | cons blk rest =>
        simp only [finish_block, hc, List.cons_append, List.headD_cons] at hb ⊢
        exact hb
  · intro b v hb
    unfold entry_prefix_ok at hb ⊢
    cases hc : b.current_function_blocks with
    | nil => simp only [hc, List.headD_nil] at hb ⊢; exact hb
    | cons blk rest => simp only [hc, List.headD_cons] at hb ⊢; exact hb
  · intro b n hb
    exact hb
  · intro b n hb
    exact hb

/-- The `functions` list is untouched by every in-function builder
operation. -/
theorem functions_const_geninv (F : List Function) : GenInv (fun b => b.functions = F) := by
  constructor
  · intro b p hb; exact hb
  · intro b t lab hb hct; exact hb
  · intro b v hb; exact hb
  · intro b n hb; exact hb
  · intro b n hb; exact hb

/-- The locals-initialization fold of `gen_method` / `gen_program` appends
exactly `local_inits ls` to the current block. -/
theorem foldl_push_inits (ls : List String) : ∀ b : IRBuilder,
    ls.foldl (fun b l => push_instruction b (.assign l (.constant 1))) b =
    { b with current_block := { b.current_block with
        primitives := b.current_block.primitives ++ local_inits ls } } := by
  induction ls with
  | nil =>
      intro b
      simp only [List.foldl_nil, local_inits, List.map_nil, List.append_nil]
  | cons l ls ih =>
      intro b
      rw [List.foldl_cons, ih]
      simp only [push_instruction, local_inits, List.map_cons, List.append_assoc,
        List.singleton_append]

theorem ff_cur_primitives (b : IRBuilder) : (ff_cur b).primitives = b.current_block.primitives := by
  unfold ff_cur
  split
  · rfl
  · rfl

theorem finish_function_functions (b : IRBuilder) (name : String) (args : List String) :
    (finish_function b name args).functions =
      b.functions ++ [⟨name, args, b.current_function_blocks ++ [ff_cur b]⟩] := rfl

theorem entry_prefix_blocks (inits : List Primitive) (b : IRBuilder)
    (hb : entry_prefix_ok inits b) (cur : BasicBlock)
    (hcur : cur.primitives = b.current_block.primitives) :
    inits <+: ((b.current_function_blocks ++ [cur]).getD 0 default).primitives := by
  unfold entry_prefix_ok at hb
  cases hc : b.current_function_blocks with
  | nil =>
      rw [hc] at hb
      simp only [List.headD_nil] at hb
      simp only [List.nil_append, List.getD_cons_zero]
      rw [hcur]
      exact hb
  | cons blk rest =>
      rw [hc] at hb
      simp only [List.headD_cons] at hb
      simp only [List.cons_append, List.getD_cons_zero]
      exact hb

/-- C3: before a method body (or the main body) is lowered, every declared
local `l` receives an initializing `Assign(l, Constant(1))` — the tagged
zero — at the start of the entry block, in declaration order; the spec's
`Constant(0)` is corrected to `Constant(1)`. -/
theorem c3_locals_initialized :
    (∀ fuel c m (b b' : IRBuilder), gen_method fuel c m b = some b' →
      ∃ fn, b'.functions = b.functions ++ [fn] ∧
        local_inits m.locals <+: (fn.blocks.getD 0 default).primitives) ∧
    (∀ fuel p prog, gen_program fuel p = some prog →
      ∃ fn, prog.functions.getLast? = some fn ∧ fn.name = "main" ∧
        local_inits p.main_locals <+: (fn.blocks.getD 0 default).primitives) := by
  constructor
  · intro fuel c m b b' h
    simp only [gen_method] at h
    rw [Option.bind_eq_bind, Option.bind_eq_some] at h
    obtain ⟨b1, hbody, h⟩ := h
    obtain rfl := Option.some_inj.mp h
    rw [foldl_push_inits] at hbody
    have hPb1 : entry_prefix_ok (local_inits m.locals) b1 :=
      (gen_statement_inv _ (entry_prefix_geninv _) fuel).2 _ _ _ hbody (by
        unfold entry_prefix_ok
        simp only [List.headD_nil, List.nil_append]
        exact List.prefix_refl _)
    have hFb1 : b1.functions = b.functions :=
      (gen_statement_inv _ (functions_const_geninv b.functions) fuel).2 _ _ _ hbody rfl
    refine ⟨⟨m.name ++ c.name, "this" :: m.args,
      b1.current_function_blocks ++ [ff_cur b1]⟩, ?_, ?_⟩
    · rw [finish_function_functions, hFb1]
    · exact entry_prefix_blocks _ _ hPb1 _ (ff_cur_primitives b1)
  · intro fuel p prog h
    simp only [gen_program] at h
    rw [Option.bind_eq_bind, Option.bind_eq_some] at h
    obtain ⟨b1, hcls, h⟩ := h
    rw [Option.bind_eq_some] at h
    obtain ⟨b2, hmain, h⟩ := h
    obtain rfl := Option.some_inj.mp h
    rw [foldl_push_inits] at hmain
    have hPb2 : entry_prefix_ok (local_inits p.main_locals) b2 :=
      (gen_statement_inv _ (entry_prefix_geninv _) fuel).2 _ _ _ hmain (by
        unfold entry_prefix_ok
        simp only [List.headD_nil, List.nil_append]
        exact List.prefix_refl _)
    refine ⟨⟨"main", [], b2.current_function_blocks ++ [ff_cur b2]⟩, ?_, rfl, ?_⟩
    · show (finish_function b2 "main" []).functions.getLast? = _
      rw [finish_function_functions]
      exact List.getLast?_concat _
    · exact entry_prefix_blocks _ _ hPb2 _ (ff_cur_primitives b2)

/-- C3 witness: the theorem applied to the method `m` of `c3_prog` (local
`a`) and to `c3_prog`'s main (local `z`). -/
theorem c3_witness :
    (gen_method 10 c3_class c3_method IRBuilder.new).isSome = true ∧
    (∃ fn, ((gen_method 10 c3_class c3_method IRBuilder.new).getD default).functions =
        IRBuilder.new.functions ++ [fn] ∧
      local_inits c3_method.locals <+: (fn.blocks.getD 0 default).primitives) ∧
    (gen_program 10 c3_prog).isSome = true ∧
    (∃ fn, ((gen_program 10 c3_prog).getD default).functions.getLast? = some fn ∧
      fn.name = "main" ∧
      local_inits c3_prog.main_locals <+: (fn.blocks.getD 0 default).primitives) :=
  ⟨by decide,
   c3_locals_initialized.1 10 c3_class c3_method IRBuilder.new _ (by decide),
   by decide,
   c3_locals_initialized.2 10 c3_prog _ (by decide)⟩

/-- C3 counterexample to the spec's wording: the initializer pushed for the
local `a` is `Assign(a, Constant(1))` (tagged zero), not
`Assign(a, Constant(0))`. -/
theorem c3_counterexample :
    ((((gen_method 10 c3_class c3_method IRBuilder.new).getD default).functions.getD 0
        default).blocks.getD 0 default).primitives.getD 0 default =
      Primitive.assign "a" (.constant 1) ∧
    Primitive.assign "a" (.constant 1) ≠ Primitive.assign "a" (.constant 0) :=
  ⟨by decide, by decide⟩

/-! ## Lemmas about class metadata (C9) -/

theorem pos_ok_nil : pos_ok [] := fun i h => absurd h (Nat.not_lt_zero i)

theorem pos_ok_snoc (ids : List (String × Nat)) (f : String) (hpos : pos_ok ids) :
    pos_ok (ids ++ [(f, ids.length)]) := by
  intro i h
  rcases Nat.lt_or_ge i ids.length with hlt | hge
  · have : (ids ++ [(f, ids.length)]).get ⟨i, h⟩ = ids.get ⟨i, hlt⟩ := by
      simp [List.get_eq_getElem, List.getElem_append_left, hlt]
    rw [this]
    exact hpos i hlt
  · have hi : i = ids.length := by
      have hub : i < ids.length + 1 := by simpa using h
      omega
    subst hi
    have : (ids ++ [(f, ids.length)]).get ⟨ids.length, h⟩ = (f, ids.length) := by
      simp [List.get_eq_getElem, List.getElem_append_right]
    rw [this]

theorem pos_ok_lookup (ids : List (String × Nat)) (hpos : pos_ok ids) (nm : String) (id : Nat)
    (h : ids.lookup nm = some id) :
    ∃ hlt : id < ids.length, ids.get ⟨id, hlt⟩ = (nm, id) := by
  obtain ⟨l1, l2, rfl, hne⟩ := List.lookup_eq_some_iff.mp h
  have hlt : l1.length < (l1 ++ (nm, id) :: l2).length := by
    simp [Nat.lt_succ_of_le, Nat.le_add_right]
  have hget : (l1 ++ (nm, id) :: l2).get ⟨l1.length, hlt⟩ = (nm, id) := by
    simp [List.get_eq_getElem, List.getElem_append_right]
  have hid : id = l1.length := by
    have hpi := hpos l1.length hlt
    rw [hget] at hpi
    exact hpi
  subst hid
  exact ⟨hlt, hget⟩

theorem pos_ok_lookup_inj (ids : List (String × Nat)) (hpos : pos_ok ids) {n1 n2 : String}
    {id : Nat} (h1 : ids.lookup n1 = some id) (h2 : ids.lookup n2 = some id) : n1 = n2 := by
  obtain ⟨hlt1, hg1⟩ := pos_ok_lookup ids hpos n1 id h1
  obtain ⟨hlt2, hg2⟩ := pos_ok_lookup ids hpos n2 id h2
  have h12 : (n1, id) = (n2, id) := hg1.symm.trans hg2
  exact congrArg Prod.fst h12

theorem lookup_isSome_append_left {l1 l2 : List (String × Nat)} {k : String}
    (h : (l1.lookup k).isSome = true) : ((l1 ++ l2).lookup k).isSome = true := by
  rw [List.lookup_append]
  cases hl : l1.lookup k with
  | none => rw [hl] at h; exact absurd h (by simp)
  | some v => rfl

/-- `add_ids` keeps ids equal to positions, only appends, keeps
`length = next`, and afterwards every walked name has an id. -/
theorem add_ids_spec : ∀ (fs : List String) (ids : List (String × Nat)) (next : Nat),
    ids.length = next → pos_ok ids →
    (add_ids fs ids next).1.length = (add_ids fs ids next).2 ∧
    pos_ok (add_ids fs ids next).1 ∧
    (∃ extra, (add_ids fs ids next).1 = ids ++ extra) ∧
    (∀ f ∈ fs, (((add_ids fs ids next).1.lookup f)).isSome = true) := by
  intro fs
  induction fs with
  | nil =>
      intro ids next h1 h2
      exact ⟨h1, h2, ⟨[], (List.append_nil _).symm⟩, fun f hf => nomatch hf⟩
  | cons f fs ih =>
      intro ids next h1 h2
      subst h1
      rw [add_ids]
      split
      · rename_i hf
        obtain ⟨hl, hp, ⟨extra, hext⟩, hcomp⟩ := ih ids ids.length rfl h2
        refine ⟨hl, hp, ⟨extra, hext⟩, ?_⟩
        intro f' hf'
        rcases List.mem_cons.mp hf' with rfl | hmem
        · rw [hext]
          exact lookup_isSome_append_left hf
        · exact hcomp f' hmem
      · rename_i hf
        have h1' : (ids ++ [(f, ids.length)]).length = ids.length + 1 := by simp
        have h2' : pos_ok (ids ++ [(f, ids.length)]) := pos_ok_snoc ids f h2
        obtain ⟨hl, hp, ⟨extra, hext⟩, hcomp⟩ := ih _ _ h1' h2'
        refine ⟨hl, hp, ⟨(f, ids.length) :: extra, by rw [hext, List.append_assoc]; rfl⟩, ?_⟩
        intro f' hf'
        rcases List.mem_cons.mp hf' with rfl | hmem
        · rw [hext]
          refine lookup_isSome_append_left ?_
          rw [List.lookup_append]
          have hnone : ids.lookup f' = none := by
            cases hv : ids.lookup f' with
            | none => rfl
            | some v => rw [hv] at hf; exact absurd rfl hf
          rw [hnone]
          simp
        · exact hcomp f' hmem

/-- The class-walk fold of the first metadata pass, generically in the
name-extraction function: ids stay positional, the list only grows by
appends, and every walked name ends up with an id. -/
theorem foldl_add_ids_spec {γ : Type} (g : γ → List String) :
    ∀ (cs : List γ) (acc : List (String × Nat) × Nat),
    acc.1.length = acc.2 → pos_ok acc.1 →
    (cs.foldl (fun acc c => add_ids (g c) acc.1 acc.2) acc).1.length =
      (cs.foldl (fun acc c => add_ids (g c) acc.1 acc.2) acc).2 ∧
    pos_ok (cs.foldl (fun acc c => add_ids (g c) acc.1 acc.2) acc).1 ∧
    (∃ extra, (cs.foldl (fun acc c => add_ids (g c) acc.1 acc.2) acc).1 = acc.1 ++ extra) ∧
    ∀ c ∈ cs, ∀ nm ∈ g c,
      (((cs.foldl (fun acc c => add_ids (g c) acc.1 acc.2) acc).1.lookup nm)).isSome = true := by
  intro cs
  induction cs with
  | nil =>
      intro acc h1 h2
      exact ⟨h1, h2, ⟨[], (List.append_nil _).symm⟩, fun c hc => nomatch hc⟩
  | cons c cs ih =>
      intro acc h1 h2
      rw [List.foldl_cons]
      obtain ⟨hl, hp, ⟨extra, hext⟩, hcomp⟩ := add_ids_spec (g c) acc.1 acc.2 h1 h2
      obtain ⟨ihl, ihp, ⟨extra2, ihext⟩, ihcomp⟩ := ih (add_ids (g c) acc.1 acc.2) hl hp
      refine ⟨ihl, ihp, ⟨extra ++ extra2, by rw [ihext, hext, List.append_assoc]⟩, ?_⟩
      intro c' hc' nm hnm
      rcases List.mem_cons.mp hc' with rfl | hmem
      · rw [ihext]
        exact lookup_isSome_append_left (hcomp nm hnm)
      · exact ihcomp c' hmem nm hnm

theorem method_ids_props (p : AstProgram) :
    pos_ok (global_method_ids_of p) ∧
    ∀ c ∈ p.classes, ∀ m ∈ c.methods,
      (((global_method_ids_of p).lookup m.name)).isSome = true := by
  have H := foldl_add_ids_spec (fun c : Class => c.methods.map Method.name) p.classes ([], 0)
    rfl pos_ok_nil
  refine ⟨H.2.1, ?_⟩
  intro c hc m hm
  exact H.2.2.2 c hc m.name (List.mem_map_of_mem _ hm)

theorem foldl_set_length {γ : Type} (key : γ → Nat) (val : γ → String) :
    ∀ (ms : List γ) (vals : List String),
    (ms.foldl (fun vals m => vals.set (key m) (val m)) vals).length = vals.length := by
  intro ms
  induction ms with
  | nil => intro vals; rfl
  | cons m ms ih => intro vals; rw [List.foldl_cons, ih, List.length_set]

theorem foldl_set_getD {γ : Type} (key : γ → Nat) (val : γ → String) (id : Nat) (w : String) :
    ∀ (ms : List γ) (vals : List String), id < vals.length →
    (∀ m ∈ ms, key m = id → val m = w) →
    (ms.foldl (fun vals m => vals.set (key m) (val m)) vals).getD id "" =
      (if ms.any (fun m => key m == id) then w else vals.getD id "") := by
  intro ms
  induction ms with
  | nil =>
      intro vals hlt hval
      simp
  | cons m ms ih =>
      intro vals hlt hval
      rw [List.foldl_cons]
      rw [ih (vals.set (key m) (val m)) (by simpa using hlt)
        (fun m' hm' => hval m' (List.mem_cons_of_mem _ hm'))]
      by_cases hk : key m = id
      · have hw : val m = w := hval m (List.mem_cons_self _ _) hk
        have hset : (vals.set (key m) (val m)).getD id "" = w := by
          rw [hk, hw, List.getD_eq_getElem?_getD, List.getElem?_set_self hlt]
          rfl
        have hcond : ((m :: ms).any (fun m' => key m' == id)) = true := by
          simp [List.any_cons, hk]
        rw [hset, ite_self]
        exact (if_pos hcond).symm
      · have hset : (vals.set (key m) (val m)).getD id "" = vals.getD id "" := by
          rw [List.getD_eq_getElem?_getD, List.getD_eq_getElem?_getD,
            List.getElem?_set_ne hk]
        have hcond : ((m :: ms).any (fun m' => key m' == id)) =
            ms.any (fun m' => key m' == id) := by
          simp [List.any_cons, hk]
        rw [hset, hcond]

theorem length_build_vtable_vals (mids : List (String × Nat)) (total : Nat) (c : Class) :
    (build_vtable_vals mids total c).length = total := by
  unfold build_vtable_vals
  exact (foldl_set_length (fun m : Method => ((mids.lookup m.name)).getD 0)
    (fun m : Method => m.name ++ c.name) c.methods (List.replicate total "0")).trans
    (List.length_replicate total "0")

theorem any_eq_of_mem {γ : Type} (f g : γ → Bool) :
    ∀ (l : List γ), (∀ x ∈ l, f x = g x) → l.any f = l.any g := by
  intro l
  induction l with
  | nil => intro h; rfl
  | cons x l ih =>
      intro h
      rw [List.any_cons, List.any_cons, h x (List.mem_cons_self _ _),
        ih (fun y hy => h y (List.mem_cons_of_mem _ hy))]

theorem gcm_fold_mem (p : AstProgram) : ∀ (cs : List Class) (b0 : IRBuilder), ∀ c ∈ cs,
    (⟨"vtbl" ++ c.name, build_vtable_vals (global_method_ids_of p)
        (global_method_ids_of p).length c⟩ : GlobalArray) ∈
      (cs.foldl (fun b c =>
        { b with
          globals := b.globals ++
            [⟨"vtbl" ++ c.name, build_vtable_vals (global_method_ids_of p)
                (global_method_ids_of p).length c⟩,
             ⟨"fields" ++ c.name, build_field_offsets (global_field_ids_of p)
                (global_field_ids_of p).length (build_field_map c.fields)⟩],
          class_metadata_map :=
            (c.name, ⟨c.fields.length, build_field_map c.fields,
              build_vtable_map c.methods⟩) :: b.class_metadata_map }) b0).globals := by
  intro cs
  induction cs with
  | nil =>
      intro b0 c hc
      exact absurd hc (List.not_mem_nil c)
  | cons hd cs ih =>
      intro b0 c hc
      rw [List.foldl_cons]
      rcases List.mem_cons.mp hc with rfl | hmem
      · refine foldl_inv (fun b =>
          (⟨"vtbl" ++ c.name, build_vtable_vals (global_method_ids_of p)
            (global_method_ids_of p).length c⟩ : GlobalArray) ∈ b.globals) _ ?_ cs _ ?_
        · intro b x hb
          exact List.mem_append.mpr (Or.inl hb)
        · exact List.mem_append.mpr (Or.inr (List.mem_cons_self _ _))
      · exact ih _ c hmem

theorem gen_class_metadata_vtbl_mem (b : IRBuilder) (p : AstProgram) (c : Class)
    (hc : c ∈ p.classes) :
    (⟨"vtbl" ++ c.name, build_vtable_vals (global_method_ids_of p)
        (global_method_ids_of p).length c⟩ : GlobalArray) ∈
      (gen_class_metadata b p).globals :=
  gcm_fold_mem p p.classes
    { b with global_field_ids := global_field_ids_of p
             global_method_ids := global_method_ids_of p } c hc

/-- C9: for every class `C` of the program, the metadata pass emits a global
array `vtblC` whose length is the number of distinct method names across all
classes (one global id per name, assigned at first observation in the
left-to-right class walk embodied by `global_method_ids_of`), and whose entry
at the global id of a method name `m` is the label `m ++ C` when `C`
implements `m` and the literal `"0"` otherwise. -/
theorem c9_vtable_layout (b : IRBuilder) (p : AstProgram) (c : Class) (hc : c ∈ p.classes) :
    ∃ vals,
      (⟨"vtbl" ++ c.name, vals⟩ : GlobalArray) ∈ (gen_class_metadata b p).globals ∧
      vals.length = (global_method_ids_of p).length ∧
      ∀ mn id, (global_method_ids_of p).lookup mn = some id →
        vals.getD id "" =
          (if c.methods.any (fun m => m.name == mn) then mn ++ c.name else "0") := by
  obtain ⟨hpos, hcomp⟩ := method_ids_props p
  refine ⟨build_vtable_vals (global_method_ids_of p) (global_method_ids_of p).length c,
    gen_class_metadata_vtbl_mem b p c hc, length_build_vtable_vals _ _ _, ?_⟩
  intro mn id hlk
  obtain ⟨hid_lt, hget⟩ := pos_ok_lookup _ hpos mn id hlk
  have hlen : id < (List.replicate (global_method_ids_of p).length "0").length := by
    simpa using hid_lt
  have hval : ∀ m ∈ c.methods,
      ((((global_method_ids_of p)).lookup m.name)).getD 0 = id →
      m.name ++ c.name = mn ++ c.name := by
    intro m hm hk
    have hS := hcomp c hc m hm
    cases hv : (global_method_ids_of p).lookup m.name with
    | none => rw [hv] at hS; exact absurd hS (by simp)
    | some idm =>
        rw [hv] at hk
        simp only [Option.getD_some] at hk
        subst hk
        have hnm : m.name = mn := pos_ok_lookup_inj _ hpos hv hlk
        rw [hnm]
  have hrep : (List.replicate (global_method_ids_of p).length "0").getD id "" = "0" := by
    rw [List.getD_eq_getElem?_getD, List.getElem?_replicate, if_pos hid_lt]
    rfl
  have hany : (c.methods.any
      (fun m => ((((global_method_ids_of p)).lookup m.name)).getD 0 == id)) =
      c.methods.any (fun m => m.name == mn) := by
    refine any_eq_of_mem _ _ c.methods ?_
    intro m hm
    have hS := hcomp c hc m hm
    cases hv : (global_method_ids_of p).lookup m.name with
    | none => rw [hv] at hS; exact absurd hS (by simp)
    | some idm =>
        simp only [Option.getD_some]
        by_cases hmn : m.name = mn
        · have hid : idm = id := by
            rw [hmn] at hv
            exact Option.some_inj.mp (hv.symm.trans hlk)
          simp [hid, hmn]
        · have hne : idm ≠ id := by
            intro he
            subst he
            exact hmn (pos_ok_lookup_inj _ hpos hv hlk)
          simp [hne, hmn]
  refine Eq.trans (b := if c.methods.any
      (fun m => ((((global_method_ids_of p)).lookup m.name)).getD 0 == id)
    then mn ++ c.name
    else (List.replicate (global_method_ids_of p).length "0").getD id "") ?_ ?_
  · exact foldl_set_getD _ _ id (mn ++ c.name) c.methods _ hlen hval
  · rw [hrep, hany]

/-- C9 witness: class `B` of `c9_prog` (methods `q`, `m`; `m` first observed
in class `A` with global id 0) satisfies the vtable layout theorem. -/
theorem c9_witness :
    c9_B ∈ c9_prog.classes ∧
    ∃ vals,
      (⟨"vtbl" ++ c9_B.name, vals⟩ : GlobalArray) ∈
        (gen_class_metadata IRBuilder.new c9_prog).globals ∧
      vals.length = (global_method_ids_of c9_prog).length ∧
      ∀ mn id, (global_method_ids_of c9_prog).lookup mn = some id →
        vals.getD id "" =
          (if c9_B.methods.any (fun m => m.name == mn) then mn ++ c9_B.name else "0") :=
  ⟨List.mem_cons_of_mem _ (List.mem_cons_self _ _),
   c9_vtable_layout IRBuilder.new c9_prog c9_B
     (List.mem_cons_of_mem _ (List.mem_cons_self _ _))⟩

theorem gen_stmt_list_cons_eq (fuel : Nat) (s : Statement) (rest : List Statement)
    (b b1 : IRBuilder) (h : gen_statement fuel s b = some b1) :
    gen_stmt_list (fuel + 1) (s :: rest) b = gen_stmt_list fuel rest b1 := by
  rw [gen_stmt_list, h]
  rfl

theorem gen_stmt_list_nil_eq (fuel : Nat) (b : IRBuilder) :
    gen_stmt_list (fuel + 1) [] b = some b := by
  rw [gen_stmt_list]

theorem gen_program_eq (fuel : Nat) (p : AstProgram) (b1 : IRBuilder)
    (h1 : gen_classes fuel p.classes (gen_class_metadata IRBuilder.new p) = some b1) :
    gen_program fuel p =
      (gen_stmt_list fuel p.main_body
        (p.main_locals.foldl (fun b l => push_instruction b (.assign l (.constant 1)))
          { b1 with
            current_block := ⟨"main", [], .ret (.constant 0)⟩
            current_function_blocks := []
            current_block_has_explicit_return := false })).bind
        (fun b => some ⟨(finish_function b "main" []).globals,
          (finish_function b "main" []).functions⟩) := by
  simp only [gen_program]
  rw [h1]
  rfl

theorem c8_s1 : gen_statement 19 (.ifStmt (.constant 1) [.ret (.constant 1)] [.ret (.constant 2)])
    c8_b0 = some c8_b1 := by decide

theorem c8_s2 : gen_statement 18 (.assignment "x" (.constant 3)) c8_b1 = some c8_b2 := by decide

theorem c8_s3 : gen_statement 17 (.ifStmt (.constant 1) [.ret (.constant 1)] [.ret (.constant 2)])
    c8_b2 = some c8_b3 := by decide

theorem c8_s4 : gen_statement 16 (.assignment "x" (.constant 4)) c8_b3 = some c8_b4 := by decide

theorem c8_list : gen_stmt_list 20
    [.ifStmt (.constant 1) [.ret (.constant 1)] [.ret (.constant 2)],
     .assignment "x" (.constant 3),
     .ifStmt (.constant 1) [.ret (.constant 1)] [.ret (.constant 2)],
     .assignment "x" (.constant 4)] c8_b0 = some c8_b4 := by
  show gen_stmt_list (19 + 1) _ _ = _
  rw [gen_stmt_list_cons_eq 19 _ _ _ _ c8_s1]
  show gen_stmt_list (18 + 1) _ _ = _
  rw [gen_stmt_list_cons_eq 18 _ _ _ _ c8_s2]
  show gen_stmt_list (17 + 1) _ _ = _
  rw [gen_stmt_list_cons_eq 17 _ _ _ _ c8_s3]
  show gen_stmt_list (16 + 1) _ _ = _
  rw [gen_stmt_list_cons_eq 16 _ _ _ _ c8_s4]
  show gen_stmt_list (15 + 1) _ _ = _
  exact gen_stmt_list_nil_eq 15 _

theorem c8_gen : gen_program 20 c8_prog = some c8_low := by
  rw [gen_program_eq 20 c8_prog IRBuilder.new (by decide)]
  have hreset : c8_prog.main_locals.foldl
      (fun b l => push_instruction b (.assign l (.constant 1)))
      { (IRBuilder.new : IRBuilder) with
        current_block := ⟨"main", [], .ret (.constant 0)⟩
        current_function_blocks := []
        current_block_has_explicit_return := false } = c8_b0 := by decide
  rw [hreset]
  have hbody : c8_prog.main_body =
      [.ifStmt (.constant 1) [.ret (.constant 1)] [.ret (.constant 2)],
       .assignment "x" (.constant 3),
       .ifStmt (.constant 1) [.ret (.constant 1)] [.ret (.constant 2)],
       .assignment "x" (.constant 4)] := rfl
  rw [hbody, c8_list]
  decide

theorem c8_fun_eq : c8_fun = c8_fun_c := by
  unfold c8_fun
  rw [c8_gen]
  rfl

theorem cfg8_eq : CFG.new c8_fun_c = cfg8_c := by decide

theorem doms8_eq : dominators_of c8_fun_c = doms8_c := by
  unfold dominators_of
  rw [cfg8_eq]
  decide

theorem phi8_eq : phi_sets_of c8_imm c8_fun_c = [] := by decide

theorem ssa8_eq : convert_to_ssa c8_imm [] c8_fun_c [] = c8_ssa_c := by decide

/-- C8: the post-SSA invariant P1 fails — `c8_fun`, the lowering of a main
whose two `if`s return in both branches, has its two merge blocks
unreachable; for the valid idom choice `c8_imm` and the valid (empty) φ
order, `convert_to_ssa` never renames them, leaving the original destination
`x` on primitives in both block 3 and block 6, so destinations are not
pairwise distinct across the function. -/
theorem c8_ssa_dest_collision :
    valid_idoms (dominators_of c8_fun) (CFG.new c8_fun).num_blocks c8_imm ∧
    valid_phi_order (phi_sets_of c8_imm c8_fun) [] ∧
    get_dest (((convert_to_ssa c8_imm [] c8_fun []).blocks.getD 3 default).primitives.getD 0
      default) = some "x" ∧
    get_dest (((convert_to_ssa c8_imm [] c8_fun []).blocks.getD 6 default).primitives.getD 0
      default) = some "x" ∧
    (3 : Nat) ≠ 6 := by
  rw [c8_fun_eq, doms8_eq, cfg8_eq, phi8_eq, ssa8_eq]
  exact ⟨by decide, by decide, by decide, by decide, by decide⟩

theorem c10_s1 : gen_statement 19
    (.ifStmt (.constant 1)
      [.assignment "x" (.constant 3), .assignment "y" (.constant 4)]
      [.assignment "x" (.constant 5), .assignment "y" (.constant 6)]) c10_b0 =
    some c10_b1 := by decide

theorem c10_s2 : gen_statement 18 (.printStmt (.var "x")) c10_b1 = some c10_b2 := by decide

theorem c10_list : gen_stmt_list 20
    [.ifStmt (.constant 1)
      [.assignment "x" (.constant 3), .assignment "y" (.constant 4)]
      [.assignment "x" (.constant 5), .assignment "y" (.constant 6)],
     .printStmt (.var "x")] c10_b0 = some c10_b2 := by
  show gen_stmt_list (19 + 1) _ _ = _
  rw [gen_stmt_list_cons_eq 19 _ _ _ _ c10_s1]
  show gen_stmt_list (18 + 1) _ _ = _
  rw [gen_stmt_list_cons_eq 18 _ _ _ _ c10_s2]
  show gen_stmt_list (17 + 1) _ _ = _
  exact gen_stmt_list_nil_eq 17 _

theorem c10_gen : gen_program 20 c10_prog = some c10_low := by
  rw [gen_program_eq 20 c10_prog IRBuilder.new (by decide)]
  have hreset : c10_prog.main_locals.foldl
      (fun b l => push_instruction b (.assign l (.constant 1)))
      { (IRBuilder.new : IRBuilder) with
        current_block := ⟨"main", [], .ret (.constant 0)⟩
        current_function_blocks := []
        current_block_has_explicit_return := false } = c10_b0 := by decide
  rw [hreset]
  have hbody : c10_prog.main_body =
      [.ifStmt (.constant 1)
        [.assignment "x" (.constant 3), .assignment "y" (.constant 4)]
        [.assignment "x" (.constant 5), .assignment "y" (.constant 6)],
       .printStmt (.var "x")] := rfl
  rw [hbody, c10_list]
  decide

theorem c10_fun_eq : c10_fun = c10_fun_c := by
  unfold c10_fun
  rw [c10_gen]
  rfl

theorem cfg10_eq : CFG.new c10_fun_c = cfg10_c := by decide

theorem doms10_eq : dominators_of c10_fun_c = doms10_c := by
  unfold dominators_of
  rw [cfg10_eq]
  decide

theorem phi10_eq : phi_sets_of c10_imm c10_fun_c = [(3, ["x", "y"])] := by decide

set_option maxRecDepth 100000 in
theorem pipeA_eq : pipeline_output c10_imm [(3, ["x", "y"])] c10_fun_c = c10_outA := by decide

set_option maxRecDepth 100000 in
theorem pipeB_eq : pipeline_output c10_imm [(3, ["y", "x"])] c10_fun_c = c10_outB := by decide

set_option maxRecDepth 100000 in
/-- C10: the compiler's printed output is not run-independent — on
`c10_fun`, the lowering of a main whose `if` assigns `x` and `y` in both
branches, the φ-insertion orders `x, y` and `y, x` at the merge block are
both valid hash-order iterations of the same φ set, and the full pipeline
(SSA, value numbering, folding, printing) produces different bytes for the
two, so two runs on the same source can print different IR. -/
theorem c10_output_depends_on_hash_order :
    valid_idoms (dominators_of c10_fun) (CFG.new c10_fun).num_blocks c10_imm ∧
    valid_phi_order (phi_sets_of c10_imm c10_fun) [(3, ["x", "y"])] ∧
    valid_phi_order (phi_sets_of c10_imm c10_fun) [(3, ["y", "x"])] ∧
    pipeline_output c10_imm [(3, ["x", "y"])] c10_fun ≠
      pipeline_output c10_imm [(3, ["y", "x"])] c10_fun := by
  rw [c10_fun_eq, doms10_eq, cfg10_eq, phi10_eq, pipeA_eq, pipeB_eq]
  exact ⟨by decide, by decide, by decide, by decide⟩
end Oop
